import Mathlib

/-
Verification of the widget-geometry layout engine
(src/general/plotting/widgeometry.py).

The module is embedded shallowly: Python floats become rationals (ℚ),
in-place mutation of the widget tree becomes functional updates, and every
operation that can raise (ValueError, IndexError on sizes[di],
AttributeError on a None range) returns an Except LayoutError value.
The widget tree is the nested inductive type Widget; all tree recursions
are written as mutual structural recursions over Widget and List Widget,
mirroring the recursive methods of the Geometry class.
-/

namespace Widgeometry

/-- Unit mode of a Buffer: a fraction of the root extent, or absolute world
units. Mirrors Buffer._possibleStyles in widgeometry.py. -/
inductive BufStyle where
  | asFrac
  | world
deriving DecidableEq

/-- Minimum spacing quantity, either inner (parent to children) or outer
(between siblings). Mirrors class Buffer in widgeometry.py. -/
structure Buffer where
  value : ℚ
  style : BufStyle
deriving DecidableEq

/-- Buffer.setWorld: converts an asFrac buffer to world units by multiplying
by the scale; a world buffer is returned unchanged (the method ignores the
call). Mirrors Buffer.setWorld in widgeometry.py. -/
def Buffer.setWorld (b : Buffer) (guiMaxExtent : ℚ) : Buffer :=
  match b.style with
  | .world => b
  | .asFrac => { value := b.value * guiMaxExtent, style := .world }

/-- The space demand of a widget along one axis. Mirrors
WidgetSize._possibleDemandStates in widgeometry.py. -/
inductive SpaceDemand where
  | shrinkToFit
  | exact
  | expandToFit
deriving DecidableEq

/-- Justification of children along one axis. Mirrors
WidgetSize._possibleJustifies in widgeometry.py. -/
inductive ChildrenJustify where
  | toLowest
  | toHighest
  | centre
  | spread
deriving DecidableEq

/-- Modelled from the spec: the class SimpleRange comes from the module
ranges, which is imported by widgeometry.py but is not among the source
files. The spec describes the resolved range only as a mutable pair
[lo, hi] attached to each SizeSpec, with no validation of its own
(section 4.2 lists the construction failures exhaustively and names none
for ranges), so it is modelled as a plain record. -/
structure SimpleRange where
  lo : ℚ
  hi : ℚ
deriving DecidableEq

/-- The error taxonomy of the layout engine. The first three arise in
WidgetSize construction, the next three in the legality pre-pass, then the
capacity pre-check, expand resolution, and the construction-time root-range
check. axisMissing models a Python IndexError on widget.sizes[di];
rangeIsNone models a Python AttributeError on reading .lo or .hi of a None
range. All carry enough of the Python message to be distinguished. -/
inductive LayoutError where
  | invalidPolicy
  | missingExtent
  | invalidJustify
  | invalidBufferStyle
  | rootCannotExpand (di : Nat) (name : String)
  | leafCannotShrink (di : Nat) (name : String)
  | expandUnderShrink (di : Nat) (parentName childName : String)
  | insufficientSpace (di : Nat) (name : String)
  | insufficientSpaceForChild (di : Nat) (childName name : String)
  | noSpaceToExpand (di : Nat) (name : String)
  | missingRootRange (di : Nat)
  | axisMissing (di : Nat)
  | rangeIsNone
deriving DecidableEq

/-- The per-axis size specification of a widget. Mirrors the attributes
stored by WidgetSize.__init__ in widgeometry.py. -/
structure WidgetSize where
  spaceDemand : SpaceDemand
  range : Option SimpleRange
  innerBuffer : Buffer
  outerBuffer : Buffer
  childrenJustify : ChildrenJustify
deriving DecidableEq

/-- Recognition of a spaceDemand tag, as tested by the membership check
against WidgetSize._possibleDemandStates. -/
def parseDemand (s : String) : Option SpaceDemand :=
  if s = "shrinkToFit" then some .shrinkToFit
  else if s = "exact" then some .exact
  else if s = "expandToFit" then some .expandToFit
  else none

/-- Recognition of a childrenJustify tag, as tested by the membership check
against WidgetSize._possibleJustifies. -/
def parseJustify (s : String) : Option ChildrenJustify :=
  if s = "toLowest" then some .toLowest
  else if s = "toHighest" then some .toHighest
  else if s = "centre" then some .centre
  else if s = "spread" then some .spread
  else none

/-- WidgetSize.__init__ from widgeometry.py, with the same check order:
unrecognized spaceDemand fails; spaceDemand exact with no maxExtent fails;
a supplied maxExtent is stored as the range [0, maxExtent]; missing buffers
default to Buffer(0.0) in asFrac style; an unrecognized childrenJustify
fails. -/
def WidgetSize.make (spaceDemand : String) (maxExtent : Option ℚ)
    (outerBuffer innerBuffer : Option Buffer) (childrenJustify : String) :
    Except LayoutError WidgetSize := do
  let demand ← match parseDemand spaceDemand with
    | none => Except.error .invalidPolicy
    | some d => Except.ok d
  if demand = .exact ∧ maxExtent = none then
    Except.error .missingExtent
  else
    let range : Option SimpleRange := match maxExtent with
      | none => none
      | some m => some ⟨0, m⟩
    let inner : Buffer := match innerBuffer with
      | none => ⟨0, .asFrac⟩
      | some b => b
    let outer : Buffer := match outerBuffer with
      | none => ⟨0, .asFrac⟩
      | some b => b
    match parseJustify childrenJustify with
    | none => Except.error .invalidJustify
    | some j =>
        Except.ok { spaceDemand := demand, range := range, innerBuffer := inner,
                    outerBuffer := outer, childrenJustify := j }

/-- A widget node: a leaf (children is None in the Python) or a frame with a
child sequence direction and an ordered child list (the TestChildren /
children attribute of the Python widgets). -/
inductive Widget where
  | leaf (name : String) (sizes : List WidgetSize)
  | frame (name : String) (sizes : List WidgetSize) (childSequenceDir : Nat)
      (childList : List Widget)

/-- The diagnostic name of a widget. -/
def Widget.name : Widget → String
  | .leaf n _ => n
  | .frame n _ _ _ => n

/-- The per-axis size specifications of a widget. -/
def Widget.sizes : Widget → List WidgetSize
  | .leaf _ s => s
  | .frame _ s _ _ => s

/-- The child list of a widget; empty for a leaf. -/
def Widget.kids : Widget → List Widget
  | .leaf _ _ => []
  | .frame _ _ _ cs => cs

/-- Indexing widget.sizes[di]; a missing axis is the Python IndexError. -/
def getSizeL (sizes : List WidgetSize) (di : Nat) : Except LayoutError WidgetSize :=
  match sizes.get? di with
  | some s => Except.ok s
  | none => Except.error (.axisMissing di)

/-- Reading widget.sizes[di] for axis di. -/
def Widget.size (w : Widget) (di : Nat) : Except LayoutError WidgetSize :=
  getSizeL w.sizes di

/-- Reading size.range.lo / size.range.hi; a None range is the Python
AttributeError. -/
def getRange (s : WidgetSize) : Except LayoutError SimpleRange :=
  match s.range with
  | some r => Except.ok r
  | none => Except.error .rangeIsNone

/-- Reading childList[0].sizes[di]. The empty case is unreachable at every
call site (all are guarded by a childList emptiness test, as in the
source). -/
def headSize (di : Nat) (kids : List Widget) : Except LayoutError WidgetSize :=
  match kids with
  | [] => Except.error (.axisMissing di)
  | k :: _ => k.size di

/-- Reading childList[-1].sizes[di]; unreachable empty case as in headSize. -/
def lastSize (di : Nat) (kids : List Widget) : Except LayoutError WidgetSize :=
  match kids.getLast? with
  | none => Except.error (.axisMissing di)
  | some k => k.size di

mutual

/-- Geometry._checkSpaceDemands: screens out the impossible parent-child
spaceDemand combinations, in the source's order: the root may not expand;
a childless widget may not shrink; a shrinkToFit parent may not have an
expandToFit child (the child's demand is only read when the parent's is
shrinkToFit, matching the short-circuit and). Recurses into children in
declaration order. -/
def checkSpaceDemands (isRoot : Bool) (w : Widget) (di : Nat) :
    Except LayoutError Unit := do
  let _ ← (if isRoot then do
      let s ← w.size di
      if s.spaceDemand = .expandToFit then
        Except.error (.rootCannotExpand di w.name)
      else Except.ok ()
    else Except.ok ())
  match w with
  | .leaf n sizes => do
      let s ← getSizeL sizes di
      if s.spaceDemand = .shrinkToFit then Except.error (.leafCannotShrink di n)
      else Except.ok ()
  | .frame n sizes _ kids => checkDemandsKids n sizes di kids

/-- The loop over childList inside Geometry._checkSpaceDemands. -/
def checkDemandsKids (parentName : String) (parentSizes : List WidgetSize)
    (di : Nat) : List Widget → Except LayoutError Unit
  | [] => Except.ok ()
  | c :: rest => do
      let ps ← getSizeL parentSizes di
      let bad ← (if ps.spaceDemand = .shrinkToFit then do
          let cs ← c.size di
          Except.ok (decide (cs.spaceDemand = .expandToFit))
        else Except.ok false)
      if bad then Except.error (.expandUnderShrink di parentName c.name)
      else do
        checkSpaceDemands false c di
        checkDemandsKids parentName parentSizes di rest

end

/-- The inner loop of Geometry._setBuffersForChildren: converts the outer
and inner buffers of sizes[0], ..., sizes[numDims-1] to world units. -/
def setBuffersAxes (sizes : List WidgetSize) (scale : ℚ) :
    Nat → Except LayoutError (List WidgetSize)
  | 0 => Except.ok sizes
  | n + 1 => do
      let sizes' ← setBuffersAxes sizes scale n
      match sizes'.get? n with
      | none => Except.error (.axisMissing n)
      | some s =>
          Except.ok (sizes'.set n { s with
            outerBuffer := s.outerBuffer.setWorld scale
            innerBuffer := s.innerBuffer.setWorld scale })

mutual

/-- Geometry._setBuffersForChildren: converts every asFrac buffer in the
tree to world units, using the single root-derived scale, for all axes. -/
def setBuffersForChildren (w : Widget) (scale : ℚ) (numDims : Nat) :
    Except LayoutError Widget :=
  match w with
  | .leaf n sizes => do
      Except.ok (.leaf n (← setBuffersAxes sizes scale numDims))
  | .frame n sizes d kids => do
      let sizes' ← setBuffersAxes sizes scale numDims
      let kids' ← setBuffersKids kids scale numDims
      Except.ok (.frame n sizes' d kids')

/-- The loop over childList inside Geometry._setBuffersForChildren. -/
def setBuffersKids : List Widget → ℚ → Nat → Except LayoutError (List Widget)
  | [], _, _ => Except.ok []
  | c :: rest, scale, numDims => do
      Except.ok ((← setBuffersForChildren c scale numDims) ::
                 (← setBuffersKids rest scale numDims))

end

/-- The loop of Geometry._checkSizeChildren for a sequence-direction frame:
subtracts from the accumulator the extent of every exact child and twice
every child's outer buffer. -/
def seqOccupiedFold (di : Nat) : List Widget → ℚ → Except LayoutError ℚ
  | [], acc => Except.ok acc
  | c :: rest, acc => do
      let s ← c.size di
      let acc1 ← (if s.spaceDemand = .exact then do
          let r ← getRange s
          Except.ok (acc - (r.hi - r.lo))
        else Except.ok acc)
      seqOccupiedFold di rest (acc1 - 2 * s.outerBuffer.value)

/-- The loop of Geometry._checkSizeChildren for a cross-direction frame:
every exact child whose extent exceeds the available interior space beyond
epsilon raises. -/
def crossFitCheck (eps : ℚ) (di : Nat) (parentName : String)
    (availableSpace : ℚ) : List Widget → Except LayoutError Unit
  | [] => Except.ok ()
  | c :: rest => do
      let _ ← (do
        let s ← c.size di
        if s.spaceDemand = .exact then do
          let r ← getRange s
          if (r.hi - r.lo) - eps > availableSpace then
            Except.error (.insufficientSpaceForChild di c.name parentName)
          else Except.ok ()
        else Except.ok ())
      crossFitCheck eps di parentName availableSpace rest

mutual

/-- Geometry._checkSizeChildren: checks that no exact frame has exact
children whose summed (sequence direction) or individual (cross direction)
extents exceed its own, within epsilon. Leaves, empty frames and non-exact
frames return immediately without recursing, as in the source. -/
def checkSizeChildren (eps : ℚ) (w : Widget) (di : Nat) :
    Except LayoutError Unit :=
  match w with
  | .leaf _ _ => Except.ok ()
  | .frame name sizes seqDir kids =>
      if kids.isEmpty then Except.ok ()
      else do
        let s ← getSizeL sizes di
        if s.spaceDemand ≠ .exact then Except.ok ()
        else do
          let r ← getRange s
          let avail := (r.hi - r.lo) - 2 * s.innerBuffer.value
          let _ ← (if seqDir = di then do
              let sF ← headSize di kids
              let sL ← lastSize di kids
              let avail2 ← seqOccupiedFold di kids
                  (avail + sF.outerBuffer.value + sL.outerBuffer.value)
              if avail2 + eps < 0 then Except.error (.insufficientSpace di name)
              else Except.ok ()
            else crossFitCheck eps di name avail kids)
          checkSizeKids eps kids di

/-- The recursion loop over childList of Geometry._checkSizeChildren. -/
def checkSizeKids (eps : ℚ) : List Widget → Nat → Except LayoutError Unit
  | [], _ => Except.ok ()
  | c :: rest, di => do
      checkSizeChildren eps c di
      checkSizeKids eps rest di

end

/-- The child-size accumulation loop shared by Geometry._shrinkChildren and
the centre / spread arm of Geometry._calcPositionsofChildren: sums every
child's extent plus twice its outer buffer (the end buffers are lopped off
afterwards by the callers). -/
def sumExtentsAndBuffersFold (di : Nat) : List Widget → ℚ → Except LayoutError ℚ
  | [], acc => Except.ok acc
  | c :: rest, acc => do
      let s ← c.size di
      let r ← getRange s
      sumExtentsAndBuffersFold di rest (acc + (r.hi - r.lo) + 2 * s.outerBuffer.value)

/-- The cross-direction loop of Geometry._shrinkChildren: the maximum child
extent, folded from an initial value. -/
def maxExtentFold (di : Nat) : List Widget → ℚ → Except LayoutError ℚ
  | [], acc => Except.ok acc
  | c :: rest, acc => do
      let s ← c.size di
      let r ← getRange s
      let e := r.hi - r.lo
      maxExtentFold di rest (if e > acc then e else acc)

mutual

/-- Geometry._shrinkChildren: called recursively, children before parent, to
resolve every shrinkToFit widget with no expandToFit children into an exact
one whose extent is the space its children need plus buffers. Setting the
range writes [0, totalChildSize + 2*innerBuffer] whether the old range was
None or not (the source's two branches store the same values). -/
def shrinkChildren (w : Widget) (di : Nat) : Except LayoutError Widget :=
  match w with
  | .leaf n sizes => Except.ok (.leaf n sizes)
  | .frame n sizes seqDir kids => do
      let out ← shrinkKids kids di
      let kids' := out.1
      if out.2 > 0 then Except.ok (.frame n sizes seqDir kids')
      else do
        let s ← getSizeL sizes di
        if s.spaceDemand ≠ .shrinkToFit then Except.ok (.frame n sizes seqDir kids')
        else do
          let total ← (if seqDir = di then do
              let t ← sumExtentsAndBuffersFold di kids' 0
              match kids' with
              | [] => Except.ok t
              | k0 :: krest => do
                  let sF ← k0.size di
                  let sL ← (krest.getLastD k0).size di
                  Except.ok (t - sF.outerBuffer.value - sL.outerBuffer.value)
            else
              match kids' with
              | [] => Except.ok (0 : ℚ)
              | k0 :: krest => do
                  let s0 ← k0.size di
                  let r0 ← getRange s0
                  maxExtentFold di krest (r0.hi - r0.lo))
          let newSize := { s with
            spaceDemand := SpaceDemand.exact
            range := some ⟨0, total + 2 * s.innerBuffer.value⟩ }
          Except.ok (.frame n (sizes.set di newSize) seqDir kids')

/-- The loop over childList of Geometry._shrinkChildren: recurses into each
child and counts, after the recursive call as in the source, the children
whose spaceDemand is expandToFit. -/
def shrinkKids : List Widget → Nat → Except LayoutError (List Widget × Nat)
  | [], _ => Except.ok ([], 0)
  | c :: rest, di => do
      let c' ← shrinkChildren c di
      let cs ← c'.size di
      let out ← shrinkKids rest di
      Except.ok (c' :: out.1,
                 (if cs.spaceDemand = .expandToFit then 1 else 0) + out.2)

end

/-- The conversion applied by Geometry._expandChildren to an expandToFit
child: its range becomes the assigned one and its demand becomes exact.
In the functional embedding the parent's assignment travels into the
child's own call; a child whose demand is not expandToFit is untouched.
The missing-axis case is unreachable because the parent's counting loop
read this axis of every child before assigning. -/
def applyExpandAssign (sizes : List WidgetSize) (di : Nat)
    (assigned : Option SimpleRange) : List WidgetSize :=
  match assigned with
  | none => sizes
  | some r =>
      match sizes.get? di with
      | none => sizes
      | some s =>
          if s.spaceDemand = .expandToFit then
            sizes.set di { s with spaceDemand := .exact, range := some r }
          else sizes

/-- The counting loop of Geometry._expandChildren: the number of children
whose spaceDemand is expandToFit. -/
def countExpandFold (di : Nat) : List Widget → Nat → Except LayoutError Nat
  | [], acc => Except.ok acc
  | c :: rest, acc => do
      let s ← c.size di
      countExpandFold di rest (acc + if s.spaceDemand = .expandToFit then 1 else 0)

/-- The free-space loop of the sequence-direction arm of
Geometry._expandChildren: subtracts the extent of every non-expanding child
and twice every child's outer buffer. -/
def expandOccupiedFold (di : Nat) : List Widget → ℚ → Except LayoutError ℚ
  | [], acc => Except.ok acc
  | c :: rest, acc => do
      let s ← c.size di
      let acc1 ← (if s.spaceDemand ≠ .expandToFit then do
          let r ← getRange s
          Except.ok (acc - (r.hi - r.lo))
        else Except.ok acc)
      expandOccupiedFold di rest (acc1 - 2 * s.outerBuffer.value)

mutual

/-- Geometry._expandChildren: called recursively, parent before children, to
resolve every expandToFit widget into an exact one. A sequence-direction
frame divides its free space evenly among its expanding children and raises
noSpaceToExpand when that space is not positive; a cross-direction frame
gives each expanding child the whole available interior extent, with no
positivity check, exactly as in the source. -/
def expandChildren : Widget → Nat → Option SimpleRange → Except LayoutError Widget
  | .leaf n sizes, di, assigned => Except.ok (.leaf n (applyExpandAssign sizes di assigned))
  | .frame n sizes seqDir kids, di, assigned =>
      let sizes1 := applyExpandAssign sizes di assigned
      if kids.isEmpty then Except.ok (.frame n sizes1 seqDir kids)
      else do
        let numExpand ← countExpandFold di kids 0
        if numExpand > 0 then do
          let s ← getSizeL sizes1 di
          let r ← getRange s
          let avail := (r.hi - r.lo) - 2 * s.innerBuffer.value
          if seqDir = di then do
            let sF ← headSize di kids
            let sL ← lastSize di kids
            let avail2 ← expandOccupiedFold di kids
                (avail + sF.outerBuffer.value + sL.outerBuffer.value)
            if avail2 ≤ 0 then Except.error (.noSpaceToExpand di n)
            else do
              let spacePerWidget := avail2 / (numExpand : ℚ)
              let kids' ← expandKids kids di (some ⟨0, spacePerWidget⟩)
              Except.ok (.frame n sizes1 seqDir kids')
          else do
            let kids' ← expandKids kids di (some ⟨0, avail⟩)
            Except.ok (.frame n sizes1 seqDir kids')
        else do
          let kids' ← expandKids kids di none
          Except.ok (.frame n sizes1 seqDir kids')

/-- The conversion-plus-recursion loop over childList of
Geometry._expandChildren. -/
def expandKids : List Widget → Nat → Option SimpleRange → Except LayoutError (List Widget)
  | [], _, _ => Except.ok []
  | c :: rest, di, assigned => do
      let c' ← expandChildren c di assigned
      let rest' ← expandKids rest di assigned
      Except.ok (c' :: rest')

end

/-- The packing loop shared by the toLowest, centre and spread arms of
Geometry._calcPositionsofChildren: walks the children left to right,
stepping over each child's outer buffer before and after it and over
extraGap (the spread arm's addedSpaceBetweenChildren, zero elsewhere) after
each child, and records the range assigned to each child. -/
def packAssignFold (di : Nat) (extraGap : ℚ) :
    List Widget → ℚ → Except LayoutError (List SimpleRange)
  | [], _ => Except.ok []
  | c :: rest, x => do
      let s ← c.size di
      let x1 := x + s.outerBuffer.value
      let r ← getRange s
      let delta := r.hi - r.lo
      let rs ← packAssignFold di extraGap rest (x1 + delta + s.outerBuffer.value + extraGap)
      Except.ok (⟨x1, x1 + delta⟩ :: rs)

/-- The packing loop of the toHighest arm of
Geometry._calcPositionsofChildren, which walks the children from last to
first: it is applied to the reversed child list and its result is reversed
back by the caller. -/
def packHighAssignFold (di : Nat) :
    List Widget → ℚ → Except LayoutError (List SimpleRange)
  | [], _ => Except.ok []
  | c :: rest, x => do
      let s ← c.size di
      let x1 := x - s.outerBuffer.value
      let r ← getRange s
      let delta := r.hi - r.lo
      let rs ← packHighAssignFold di rest (x1 - delta - s.outerBuffer.value)
      Except.ok (⟨x1 - delta, x1⟩ :: rs)

/-- The cross-direction loops of Geometry._calcPositionsofChildren: each
child is placed independently, flush to the low edge, flush to the high
edge, or centred; spread falls into the same arm as centre in the source. -/
def crossAssignFold (di : Nat) (mode : ChildrenJustify) (base : ℚ) :
    List Widget → Except LayoutError (List SimpleRange)
  | [] => Except.ok []
  | c :: rest => do
      let s ← c.size di
      let r ← getRange s
      let delta := r.hi - r.lo
      let asn : SimpleRange :=
        match mode with
        | .toLowest => ⟨base, base + delta⟩
        | .toHighest => ⟨base - delta, base⟩
        | _ => ⟨base - delta / 2, base + delta / 2⟩
      let rs ← crossAssignFold di mode base rest
      Except.ok (asn :: rs)

/-- Writing the range assigned by the parent's positioning loop into a
child's sizes[di] before the child's own call; the source reads each
child's old range (for delta) before writing, so the missing-axis case is
unreachable. -/
def applyRangeAssign (sizes : List WidgetSize) (di : Nat)
    (assigned : Option SimpleRange) : List WidgetSize :=
  match assigned with
  | none => sizes
  | some r =>
      match sizes.get? di with
      | none => sizes
      | some s => sizes.set di { s with range := some r }

mutual

/-- Geometry._calcPositionsofChildren: called recursively, parent before
children, once every widget is exact, to assign each child its concrete
[lo, hi] range inside its parent according to the parent's childrenJustify.
As with expansion, the range the parent assigns travels into the child's
own call in this functional embedding. -/
def calcPositionsofChildren : Widget → Nat → Option SimpleRange → Except LayoutError Widget
  | .leaf n sizes, di, assigned => Except.ok (.leaf n (applyRangeAssign sizes di assigned))
  | .frame n sizes seqDir kids, di, assigned =>
      let sizes1 := applyRangeAssign sizes di assigned
      if kids.isEmpty then Except.ok (.frame n sizes1 seqDir kids)
      else do
        let numChildren := kids.length
        let s ← getSizeL sizes1 di
        let assigns ←
          (if seqDir = di then
            (if s.childrenJustify = .toLowest then do
              let r ← getRange s
              let sF ← headSize di kids
              packAssignFold di 0 kids (r.lo + s.innerBuffer.value - sF.outerBuffer.value)
            else if s.childrenJustify = .toHighest then do
              let r ← getRange s
              let sL ← lastSize di kids
              let rsRev ← packHighAssignFold di kids.reverse
                  (r.hi - s.innerBuffer.value + sL.outerBuffer.value)
              Except.ok rsRev.reverse
            else do
              let t ← sumExtentsAndBuffersFold di kids 0
              let sF ← headSize di kids
              let sL ← lastSize di kids
              let totalWidth := t - sF.outerBuffer.value - sL.outerBuffer.value
              if s.childrenJustify = .centre ∨ numChildren = 1 then do
                let r ← getRange s
                let x0 := (r.hi + r.lo) / 2 - totalWidth / 2 - sF.outerBuffer.value
                packAssignFold di 0 kids x0
              else do
                let r ← getRange s
                let avail := (r.hi - r.lo) - 2 * s.innerBuffer.value
                let added := (avail - totalWidth) / ((numChildren - 1 : Nat) : ℚ)
                packAssignFold di added kids (r.lo + s.innerBuffer.value - sF.outerBuffer.value))
          else do
            let r ← getRange s
            let base :=
              match s.childrenJustify with
              | .toLowest => r.lo + s.innerBuffer.value
              | .toHighest => r.hi - s.innerBuffer.value
              | _ => (r.hi + r.lo) / 2
            crossAssignFold di s.childrenJustify base kids)
        let kids' ← posKids kids di assigns
        Except.ok (.frame n sizes1 seqDir kids')

/-- The recursion loop over childList of Geometry._calcPositionsofChildren,
handing each child the range its parent assigned to it. -/
def posKids : List Widget → Nat → List SimpleRange → Except LayoutError (List Widget)
  | [], _, _ => Except.ok []
  | c :: rest, di, assigns => do
      let c' ← calcPositionsofChildren c di assigns.head?
      let rest' ← posKids rest di (assigns.drop 1)
      Except.ok (c' :: rest')

end

/-- The layout solver: the root widget (with buffers already normalized to
world units by construction) and the numerical tolerance epsilon. -/
structure Geometry where
  rootWidget : Widget
  epsilon : ℚ

/-- The per-dimension loop of Geometry.__init__: the legality pre-pass for
each axis, interleaved with the check that the root has a range on that
axis, in ascending axis order. -/
def checkDimsLoop (root : Widget) : List Nat → Except LayoutError Unit
  | [] => Except.ok ()
  | di :: rest => do
      checkSpaceDemands true root di
      let s ← root.size di
      match s.range with
      | none => Except.error (.missingRootRange di)
      | some _ => checkDimsLoop root rest

/-- The maxRootSize loop of Geometry.__init__: the largest root extent over
all axes, starting from 0. -/
def maxRootSizeLoop (root : Widget) : List Nat → ℚ → Except LayoutError ℚ
  | [], acc => Except.ok acc
  | di :: rest, acc => do
      let s ← root.size di
      let r ← getRange s
      let sz := r.hi - r.lo
      maxRootSizeLoop root rest (if sz > acc then sz else acc)

/-- Geometry.__init__: the legality and root-range checks for every axis,
then the global buffer normalization with the root's largest extent as the
single scale. -/
def mkGeometry (rootWidget : Widget) (epsilon : ℚ) : Except LayoutError Geometry := do
  let numDims := rootWidget.sizes.length
  checkDimsLoop rootWidget (List.range numDims)
  let maxRootSize ← maxRootSizeLoop rootWidget (List.range numDims) 0
  let root' ← setBuffersForChildren rootWidget maxRootSize numDims
  Except.ok { rootWidget := root', epsilon := epsilon }

/-- The default epsilon of Geometry.__init__. -/
def defaultEpsilon : ℚ := 1 / 10000000

/-- Geometry.calcRanges: the four phases for one axis, in order: capacity
pre-check, shrink resolution, expand resolution, position assignment.
Returns the solved tree. -/
def Geometry.calcRanges (g : Geometry) (di : Nat) : Except LayoutError Widget := do
  checkSizeChildren g.epsilon g.rootWidget di
  let t1 ← shrinkChildren g.rootWidget di
  let t2 ← expandChildren t1 di none
  calcPositionsofChildren t2 di none

/-! Observation helpers used to state properties of solved trees. -/

/-- Whether an Except value is a success. -/
def isOk {α : Type} (e : Except LayoutError α) : Bool :=
  match e with
  | .ok _ => true
  | .error _ => false

/-- The resolved range of the widget reached from w by the given child-index
path, on axis di. -/
def rangeAtPath (w : Widget) (path : List Nat) (di : Nat) : Option SimpleRange :=
  match path with
  | [] =>
      match w.sizes.get? di with
      | some s => s.range
      | none => none
  | i :: rest =>
      match w.kids.get? i with
      | some c => rangeAtPath c rest di
      | none => none

/-- The space demand of the widget reached from w by the given child-index
path, on axis di. -/
def demandAtPath (w : Widget) (path : List Nat) (di : Nat) : Option SpaceDemand :=
  match path with
  | [] =>
      match w.sizes.get? di with
      | some s => some s.spaceDemand
      | none => none
  | i :: rest =>
      match w.kids.get? i with
      | some c => demandAtPath c rest di
      | none => none

/-- The range at a path inside a solved tree; none when the solve failed. -/
def solvedRange (e : Except LayoutError Widget) (path : List Nat) (di : Nat) :
    Option SimpleRange :=
  match e with
  | .ok t => rangeAtPath t path di
  | .error _ => none

mutual

/-- A node-wise Boolean property holding everywhere in a tree. -/
def allNodes (p : Widget → Bool) : Widget → Bool
  | .leaf n sizes => p (.leaf n sizes)
  | .frame n sizes d kids => p (.frame n sizes d kids) && allNodesKids p kids

/-- allNodes over a child list. -/
def allNodesKids (p : Widget → Bool) : List Widget → Bool
  | [] => true
  | c :: rest => allNodes p c && allNodesKids p rest

end

/-- The space demand stored at axis di of a widget's own sizes, when the
axis exists. -/
def topDemand? (w : Widget) (di : Nat) : Option SpaceDemand :=
  match w.sizes.get? di with
  | some s => some s.spaceDemand
  | none => none

/-- Whether the widget's own spec at axis di carries a resolved range;
vacuously true when the axis is absent. -/
def rangedAt (di : Nat) (w : Widget) : Bool :=
  match w.sizes.get? di with
  | some s => s.range.isSome
  | none => true

/-- Whether the widget's own spec at axis di is a non-vacuous resolved
range (false when the axis is absent); used for the root checks. -/
def topRangeIsSome (w : Widget) (di : Nat) : Bool :=
  match w.sizes.get? di with
  | some s => s.range.isSome
  | none => false

/-- Whether the widget's own spec at axis di has policy exact; vacuously
true when the axis is absent. -/
def exactAt (di : Nat) (w : Widget) : Bool :=
  match w.sizes.get? di with
  | some s => decide (s.spaceDemand = .exact)
  | none => true

/-- The solved-state property of one widget at axis di: policy exact and a
present range; vacuously true when the axis is absent. -/
def solvedAt (di : Nat) (w : Widget) : Bool :=
  match w.sizes.get? di with
  | some s => decide (s.spaceDemand = .exact) && s.range.isSome
  | none => true

/-- Whether the widget's own spec at axis di is not shrinkToFit. -/
def notShrinkAt (di : Nat) (w : Widget) : Bool :=
  decide (topDemand? w di ≠ some .shrinkToFit)

/-- Whether every direct child of the widget is exact at axis di. -/
def kidsExactAt (di : Nat) (w : Widget) : Bool :=
  (Widget.kids w).all (fun c => exactAt di c)

/-- Whether every direct child of the widget is ranged at axis di. -/
def kidsRangedAt (di : Nat) (w : Widget) : Bool :=
  (Widget.kids w).all (fun c => rangedAt di c)

mutual

/-- The shrink-legality screened by Geometry._checkSpaceDemands, as a
predicate: no leaf is shrinkToFit at di, and no shrinkToFit frame has an
expandToFit child at di. (The root-expand rule is tracked separately.) -/
def legalShrinks (di : Nat) : Widget → Bool
  | .leaf n sizes => decide (topDemand? (.leaf n sizes) di ≠ some .shrinkToFit)
  | .frame n sizes d kids =>
      ((!decide (topDemand? (.frame n sizes d kids) di = some .shrinkToFit)) ||
       (!kids.any (fun c => decide (topDemand? c di = some .expandToFit)))) &&
      legalShrinksKids di kids

/-- legalShrinks over a child list. -/
def legalShrinksKids (di : Nat) : List Widget → Bool
  | [] => true
  | c :: rest => legalShrinks di c && legalShrinksKids di rest

end

/-- The per-axis view of a widget tree: for a fixed axis, the name, the
whole SizeSpec stored at that axis (if any), the sequence direction, and
the children's views. Two trees with equal views at axis dj present
identical axis-dj data to the solver. -/
inductive AxisView where
  | leafV (name : String) (spec : Option WidgetSize)
  | frameV (name : String) (spec : Option WidgetSize) (childSequenceDir : Nat)
      (kids : List AxisView)

mutual

/-- The axis-dj view of a widget tree. -/
def axisView (dj : Nat) : Widget → AxisView
  | .leaf n sizes => .leafV n (sizes.get? dj)
  | .frame n sizes d kids => .frameV n (sizes.get? dj) d (axisViewKids dj kids)

/-- The axis-dj views of a child list. -/
def axisViewKids (dj : Nat) : List Widget → List AxisView
  | [] => []
  | c :: rest => axisView dj c :: axisViewKids dj rest

end

/-! The solver restricted to one axis view. Each definition below mirrors
the corresponding solver function literally, reading the per-axis spec the
view stores instead of indexing a sizes list; the commuting theorems later
show each phase of the real solver factors through these, which is what
makes the per-axis frame effect a congruence statement. -/

/-- The diagnostic name of a viewed widget. -/
def AxisView.name : AxisView → String
  | .leafV n _ => n
  | .frameV n _ _ _ => n

/-- The per-axis spec carried by a viewed widget. -/
def AxisView.spec : AxisView → Option WidgetSize
  | .leafV _ s => s
  | .frameV _ s _ _ => s

/-- Reading sizes[di] through its view: the stored spec or the IndexError. -/
def getSizeV (di : Nat) (spec : Option WidgetSize) :
    Except LayoutError WidgetSize :=
  match spec with
  | some s => Except.ok s
  | none => Except.error (.axisMissing di)

/-- Reading widget.sizes[di] of a viewed widget. -/
def AxisView.size (v : AxisView) (di : Nat) : Except LayoutError WidgetSize :=
  getSizeV di v.spec

/-- headSize through views. -/
def headSizeV (di : Nat) (kids : List AxisView) : Except LayoutError WidgetSize :=
  match kids with
  | [] => Except.error (.axisMissing di)
  | k :: _ => k.size di

/-- lastSize through views. -/
def lastSizeV (di : Nat) (kids : List AxisView) : Except LayoutError WidgetSize :=
  match kids.getLast? with
  | none => Except.error (.axisMissing di)
  | some k => k.size di

/-- seqOccupiedFold through views. -/
def seqOccupiedFoldV (di : Nat) : List AxisView → ℚ → Except LayoutError ℚ
  | [], acc => Except.ok acc
  | c :: rest, acc => do
      let s ← c.size di
      let acc1 ← (if s.spaceDemand = .exact then do
          let r ← getRange s
          Except.ok (acc - (r.hi - r.lo))
        else Except.ok acc)
      seqOccupiedFoldV di rest (acc1 - 2 * s.outerBuffer.value)

/-- crossFitCheck through views. -/
def crossFitCheckV (eps : ℚ) (di : Nat) (parentName : String)
    (availableSpace : ℚ) : List AxisView → Except LayoutError Unit
  | [] => Except.ok ()
  | c :: rest => do
      let _ ← (do
        let s ← c.size di
        if s.spaceDemand = .exact then do
          let r ← getRange s
          if (r.hi - r.lo) - eps > availableSpace then
            Except.error (.insufficientSpaceForChild di c.name parentName)
          else Except.ok ()
        else Except.ok ())
      crossFitCheckV eps di parentName availableSpace rest

mutual

/-- checkSizeChildren through views. -/
def checkSizeChildrenV (eps : ℚ) (v : AxisView) (di : Nat) :
    Except LayoutError Unit :=
  match v with
  | .leafV _ _ => Except.ok ()
  | .frameV name spec seqDir kids =>
      if kids.isEmpty then Except.ok ()
      else do
        let s ← getSizeV di spec
        if s.spaceDemand ≠ .exact then Except.ok ()
        else do
          let r ← getRange s
          let avail := (r.hi - r.lo) - 2 * s.innerBuffer.value
          let _ ← (if seqDir = di then do
              let sF ← headSizeV di kids
              let sL ← lastSizeV di kids
              let avail2 ← seqOccupiedFoldV di kids
                  (avail + sF.outerBuffer.value + sL.outerBuffer.value)
              if avail2 + eps < 0 then Except.error (.insufficientSpace di name)
              else Except.ok ()
            else crossFitCheckV eps di name avail kids)
          checkSizeKidsV eps kids di

/-- The recursion loop of checkSizeChildrenV. -/
def checkSizeKidsV (eps : ℚ) : List AxisView → Nat → Except LayoutError Unit
  | [], _ => Except.ok ()
  | c :: rest, di => do
      checkSizeChildrenV eps c di
      checkSizeKidsV eps rest di

end

/-- sumExtentsAndBuffersFold through views. -/
def sumExtentsAndBuffersFoldV (di : Nat) :
    List AxisView → ℚ → Except LayoutError ℚ
  | [], acc => Except.ok acc
  | c :: rest, acc => do
      let s ← c.size di
      let r ← getRange s
      sumExtentsAndBuffersFoldV di rest (acc + (r.hi - r.lo) + 2 * s.outerBuffer.value)

/-- maxExtentFold through views. -/
def maxExtentFoldV (di : Nat) : List AxisView → ℚ → Except LayoutError ℚ
  | [], acc => Except.ok acc
  | c :: rest, acc => do
      let s ← c.size di
      let r ← getRange s
      let e := r.hi - r.lo
      maxExtentFoldV di rest (if e > acc then e else acc)

mutual

/-- shrinkChildren through views; the parent's range write becomes a write
of the stored spec (the real write lands at an index the solver has just
read successfully). -/
def shrinkChildrenV (v : AxisView) (di : Nat) : Except LayoutError AxisView :=
  match v with
  | .leafV n spec => Except.ok (.leafV n spec)
  | .frameV n spec seqDir kids => do
      let out ← shrinkKidsV kids di
      let kids' := out.1
      if out.2 > 0 then Except.ok (.frameV n spec seqDir kids')
      else do
        let s ← getSizeV di spec
        if s.spaceDemand ≠ .shrinkToFit then Except.ok (.frameV n spec seqDir kids')
        else do
          let total ← (if seqDir = di then do
              let t ← sumExtentsAndBuffersFoldV di kids' 0
              match kids' with
              | [] => Except.ok t
              | k0 :: krest => do
                  let sF ← k0.size di
                  let sL ← (krest.getLastD k0).size di
                  Except.ok (t - sF.outerBuffer.value - sL.outerBuffer.value)
            else
              match kids' with
              | [] => Except.ok (0 : ℚ)
              | k0 :: krest => do
                  let s0 ← k0.size di
                  let r0 ← getRange s0
                  maxExtentFoldV di krest (r0.hi - r0.lo))
          let newSize := { s with
            spaceDemand := SpaceDemand.exact
            range := some ⟨0, total + 2 * s.innerBuffer.value⟩ }
          Except.ok (.frameV n (some newSize) seqDir kids')

/-- The loop of shrinkChildrenV over a viewed child list. -/
def shrinkKidsV : List AxisView → Nat → Except LayoutError (List AxisView × Nat)
  | [], _ => Except.ok ([], 0)
  | c :: rest, di => do
      let c' ← shrinkChildrenV c di
      let cs ← c'.size di
      let out ← shrinkKidsV rest di
      Except.ok (c' :: out.1,
                 (if cs.spaceDemand = .expandToFit then 1 else 0) + out.2)

end

/-- applyExpandAssign through views. -/
def applyExpandAssignV (spec : Option WidgetSize)
    (assigned : Option SimpleRange) : Option WidgetSize :=
  match assigned with
  | none => spec
  | some r =>
      match spec with
      | none => spec
      | some s =>
          if s.spaceDemand = .expandToFit then
            some { s with spaceDemand := .exact, range := some r }
          else spec

/-- countExpandFold through views. -/
def countExpandFoldV (di : Nat) : List AxisView → Nat → Except LayoutError Nat
  | [], acc => Except.ok acc
  | c :: rest, acc => do
      let s ← c.size di
      countExpandFoldV di rest (acc + if s.spaceDemand = .expandToFit then 1 else 0)

/-- expandOccupiedFold through views. -/
def expandOccupiedFoldV (di : Nat) : List AxisView → ℚ → Except LayoutError ℚ
  | [], acc => Except.ok acc
  | c :: rest, acc => do
      let s ← c.size di
      let acc1 ← (if s.spaceDemand ≠ .expandToFit then do
          let r ← getRange s
          Except.ok (acc - (r.hi - r.lo))
        else Except.ok acc)
      expandOccupiedFoldV di rest (acc1 - 2 * s.outerBuffer.value)

mutual

/-- expandChildren through views. -/
def expandChildrenV : AxisView → Nat → Option SimpleRange → Except LayoutError AxisView
  | .leafV n spec, _, assigned => Except.ok (.leafV n (applyExpandAssignV spec assigned))
  | .frameV n spec seqDir kids, di, assigned =>
      let spec1 := applyExpandAssignV spec assigned
      if kids.isEmpty then Except.ok (.frameV n spec1 seqDir kids)
      else do
        let numExpand ← countExpandFoldV di kids 0
        if numExpand > 0 then do
          let s ← getSizeV di spec1
          let r ← getRange s
          let avail := (r.hi - r.lo) - 2 * s.innerBuffer.value
          if seqDir = di then do
            let sF ← headSizeV di kids
            let sL ← lastSizeV di kids
            let avail2 ← expandOccupiedFoldV di kids
                (avail + sF.outerBuffer.value + sL.outerBuffer.value)
            if avail2 ≤ 0 then Except.error (.noSpaceToExpand di n)
            else do
              let spacePerWidget := avail2 / (numExpand : ℚ)
              let kids' ← expandKidsV kids di (some ⟨0, spacePerWidget⟩)
              Except.ok (.frameV n spec1 seqDir kids')
          else do
            let kids' ← expandKidsV kids di (some ⟨0, avail⟩)
            Except.ok (.frameV n spec1 seqDir kids')
        else do
          let kids' ← expandKidsV kids di none
          Except.ok (.frameV n spec1 seqDir kids')

/-- The loop of expandChildrenV over a viewed child list. -/
def expandKidsV : List AxisView → Nat → Option SimpleRange → Except LayoutError (List AxisView)
  | [], _, _ => Except.ok []
  | c :: rest, di, assigned => do
      let c' ← expandChildrenV c di assigned
      let rest' ← expandKidsV rest di assigned
      Except.ok (c' :: rest')

end

/-- packAssignFold through views. -/
def packAssignFoldV (di : Nat) (extraGap : ℚ) :
    List AxisView → ℚ → Except LayoutError (List SimpleRange)
  | [], _ => Except.ok []
  | c :: rest, x => do
      let s ← c.size di
      let x1 := x + s.outerBuffer.value
      let r ← getRange s
      let delta := r.hi - r.lo
      let rs ← packAssignFoldV di extraGap rest (x1 + delta + s.outerBuffer.value + extraGap)
      Except.ok (⟨x1, x1 + delta⟩ :: rs)

/-- packHighAssignFold through views. -/
def packHighAssignFoldV (di : Nat) :
    List AxisView → ℚ → Except LayoutError (List SimpleRange)
  | [], _ => Except.ok []
  | c :: rest, x => do
      let s ← c.size di
      let x1 := x - s.outerBuffer.value
      let r ← getRange s
      let delta := r.hi - r.lo
      let rs ← packHighAssignFoldV di rest (x1 - delta - s.outerBuffer.value)
      Except.ok (⟨x1 - delta, x1⟩ :: rs)

/-- crossAssignFold through views. -/
def crossAssignFoldV (di : Nat) (mode : ChildrenJustify) (base : ℚ) :
    List AxisView → Except LayoutError (List SimpleRange)
  | [] => Except.ok []
  | c :: rest => do
      let s ← c.size di
      let r ← getRange s
      let delta := r.hi - r.lo
      let asn : SimpleRange :=
        match mode with
        | .toLowest => ⟨base, base + delta⟩
        | .toHighest => ⟨base - delta, base⟩
        | _ => ⟨base - delta / 2, base + delta / 2⟩
      let rs ← crossAssignFoldV di mode base rest
      Except.ok (asn :: rs)

/-- applyRangeAssign through views. -/
def applyRangeAssignV (spec : Option WidgetSize)
    (assigned : Option SimpleRange) : Option WidgetSize :=
  match assigned with
  | none => spec
  | some r =>
      match spec with
      | none => spec
      | some s => some { s with range := some r }

mutual

/-- calcPositionsofChildren through views. -/
def calcPositionsofChildrenV : AxisView → Nat → Option SimpleRange → Except LayoutError AxisView
  | .leafV n spec, _, assigned => Except.ok (.leafV n (applyRangeAssignV spec assigned))
  | .frameV n spec seqDir kids, di, assigned =>
      let spec1 := applyRangeAssignV spec assigned
      if kids.isEmpty then Except.ok (.frameV n spec1 seqDir kids)
      else do
        let numChildren := kids.length
        let s ← getSizeV di spec1
        let assigns ←
          (if seqDir = di then
            (if s.childrenJustify = .toLowest then do
              let r ← getRange s
              let sF ← headSizeV di kids
              packAssignFoldV di 0 kids (r.lo + s.innerBuffer.value - sF.outerBuffer.value)
            else if s.childrenJustify = .toHighest then do
              let r ← getRange s
              let sL ← lastSizeV di kids
              let rsRev ← packHighAssignFoldV di kids.reverse
                  (r.hi - s.innerBuffer.value + sL.outerBuffer.value)
              Except.ok rsRev.reverse
            else do
              let t ← sumExtentsAndBuffersFoldV di kids 0
              let sF ← headSizeV di kids
              let sL ← lastSizeV di kids
              let totalWidth := t - sF.outerBuffer.value - sL.outerBuffer.value
              if s.childrenJustify = .centre ∨ numChildren = 1 then do
                let r ← getRange s
                let x0 := (r.hi + r.lo) / 2 - totalWidth / 2 - sF.outerBuffer.value
                packAssignFoldV di 0 kids x0
              else do
                let r ← getRange s
                let avail := (r.hi - r.lo) - 2 * s.innerBuffer.value
                let added := (avail - totalWidth) / ((numChildren - 1 : Nat) : ℚ)
                packAssignFoldV di added kids (r.lo + s.innerBuffer.value - sF.outerBuffer.value))
          else do
            let r ← getRange s
            let base :=
              match s.childrenJustify with
              | .toLowest => r.lo + s.innerBuffer.value
              | .toHighest => r.hi - s.innerBuffer.value
              | _ => (r.hi + r.lo) / 2
            crossAssignFoldV di s.childrenJustify base kids)
        let kids' ← posKidsV kids di assigns
        Except.ok (.frameV n spec1 seqDir kids')

/-- The loop of calcPositionsofChildrenV over a viewed child list. -/
def posKidsV : List AxisView → Nat → List SimpleRange → Except LayoutError (List AxisView)
  | [], _, _ => Except.ok []
  | c :: rest, di, assigns => do
      let c' ← calcPositionsofChildrenV c di assigns.head?
      let rest' ← posKidsV rest di (assigns.drop 1)
      Except.ok (c' :: rest')

end

/-- Geometry.calcRanges through views: the four phases on the axis view. -/
def calcRangesV (eps : ℚ) (v : AxisView) (di : Nat) : Except LayoutError AxisView := do
  checkSizeChildrenV eps v di
  let t1 ← shrinkChildrenV v di
  let t2 ← expandChildrenV t1 di none
  calcPositionsofChildrenV t2 di none

/-! Concrete widget trees used by counterexamples and witnesses. The
buffers are given directly in world units (style world), which the
WidgetSize constructor accepts, so that buffer normalization leaves them
unchanged and the arithmetic stays transparent. -/

/-- An exact size spec with the given extent, outer and inner world-unit
buffer values and justify mode. -/
def wsExact (extent outer inner : ℚ) (j : ChildrenJustify) : WidgetSize :=
  { spaceDemand := .exact
    range := some ⟨0, extent⟩
    innerBuffer := ⟨inner, .world⟩
    outerBuffer := ⟨outer, .world⟩
    childrenJustify := j }

/-- A shrinkToFit size spec (no extent supplied). -/
def wsShrink (outer inner : ℚ) (j : ChildrenJustify) : WidgetSize :=
  { spaceDemand := .shrinkToFit
    range := none
    innerBuffer := ⟨inner, .world⟩
    outerBuffer := ⟨outer, .world⟩
    childrenJustify := j }

/-- An expandToFit size spec (no extent supplied). -/
def wsExpand (outer inner : ℚ) (j : ChildrenJustify) : WidgetSize :=
  { spaceDemand := .expandToFit
    range := none
    innerBuffer := ⟨inner, .world⟩
    outerBuffer := ⟨outer, .world⟩
    childrenJustify := j }

/-- A one-axis tree: a root of extent 1 whose children run along axis 1
(cross to the solved axis 0) with inner buffer 1, holding one expandToFit
leaf. The available interior space on axis 0 is 1 - 2*1 = -1. -/
def rootCross : Widget :=
  .frame "gui" [wsExact 1 0 1 .centre] 1 [.leaf "kid" [wsExpand 0 0 .spread]]

/-- A one-axis tree: a root of extent 1 whose sequence direction is the
solved axis 0, inner buffer 1, holding one expandToFit leaf. -/
def rootSeqTight : Widget :=
  .frame "gui" [wsExact 1 0 1 .centre] 0 [.leaf "kid" [wsExpand 0 0 .spread]]

/-- A one-axis tree, all buffers zero: a root of extent 1 in sequence
direction 0 holding a shrinkToFit frame a whose single exact leaf b has
extent 5, so a's resolved extent 5 exceeds the root's extent 1. -/
def rootShrinkOverflow : Widget :=
  .frame "gui" [wsExact 1 0 0 .centre] 0
    [.frame "a" [wsShrink 0 0 .centre] 0 [.leaf "b" [wsExact 5 0 0 .centre]]]

/-- A one-axis tree, all buffers zero: a root of extent 1 in sequence
direction 0, justify spread, holding the shrinkToFit frame a (contents of
extent 5) and an exact leaf c of extent 1/2. -/
def rootShrinkSiblings : Widget :=
  .frame "gui" [wsExact 1 0 0 .spread] 0
    [.frame "a" [wsShrink 0 0 .centre] 0 [.leaf "b" [wsExact 5 0 0 .centre]],
     .leaf "c" [wsExact (1/2) 0 0 .spread]]

/-- The scenario C container: shrinkToFit, sequence direction 0, inner
buffer 1/5, with two exact children of extents 2 and 3, each with outer
buffer 1/10 in world units. -/
def shrinkScenarioC : Widget :=
  .frame "box" [wsShrink 0 (1/5) .spread] 0
    [.leaf "d1" [wsExact 2 (1/10) 0 .spread],
     .leaf "d2" [wsExact 3 (1/10) 0 .spread]]

/-- A one-axis tree, zero buffers: a root of extent 10, sequence direction
0, justify spread, with two exact leaves of extent 1 each. The leftover
space is 10 - 2 = 8. -/
def rootSpreadPair : Widget :=
  .frame "gui" [wsExact 10 0 0 .spread] 0
    [.leaf "e1" [wsExact 1 0 0 .spread], .leaf "e2" [wsExact 1 0 0 .spread]]

/-- The tree rootSpreadPair after position assignment on axis 0: the first
child sits at [0, 1] and the second at [9, 10]. -/
def rootSpreadPairSolved : Widget :=
  .frame "gui" [wsExact 10 0 0 .spread] 0
    [.leaf "e1" [⟨.exact, some ⟨0, 1⟩, ⟨0, .world⟩, ⟨0, .world⟩, .spread⟩],
     .leaf "e2" [⟨.exact, some ⟨9, 10⟩, ⟨0, .world⟩, ⟨0, .world⟩, .spread⟩]]

/-- A two-axis tree: the root frame runs its single exact child along axis
0 and centres it; both axes carry exact specs. -/
def rootTwoAxes : Widget :=
  .frame "R" [wsExact 10 0 0 .centre, wsExact 4 0 0 .centre] 0
    [.leaf "a" [wsExact 2 0 0 .centre, wsExact 1 0 0 .centre]]

/-- rootTwoAxes after the axis-0 solve: the child is centred at [4, 6] on
axis 0 while every axis-1 spec is untouched. -/
def rootTwoAxesSolved : Widget :=
  .frame "R" [wsExact 10 0 0 .centre, wsExact 4 0 0 .centre] 0
    [.leaf "a" [⟨.exact, some ⟨4, 6⟩, ⟨0, .world⟩, ⟨0, .world⟩, .centre⟩,
       wsExact 1 0 0 .centre]]

/-! Theorems settling the claims. -/

/-- C8 (confirmed): for a Buffer created in asFrac mode with value v,
setWorld(s1) followed by setWorld(s2) leaves the buffer exactly as
setWorld(s1) alone does, with value v*s1 and style world; the second call
is a no-op whatever its scale. -/
theorem buffer_setWorld_idempotent (v s1 s2 : ℚ) :
    Buffer.setWorld (Buffer.setWorld ⟨v, .asFrac⟩ s1) s2 =
      Buffer.setWorld ⟨v, .asFrac⟩ s1 ∧
    Buffer.setWorld ⟨v, .asFrac⟩ s1 = ⟨v * s1, .world⟩ :=
  ⟨rfl, rfl⟩

/-- C7 counterexample: the WidgetSize constructor accepts spaceDemand
exact with the negative maxExtent -1 and succeeds, storing the range
[0, -1]; the claim that construction fails for every negative maxExtent is
false. Neither WidgetSize.__init__ nor the stored range checks the sign of
the extent. -/
theorem widgetSize_negative_extent_accepted :
    WidgetSize.make "exact" (some (-1)) none none "spread" =
      Except.ok ⟨.exact, some ⟨0, -1⟩, ⟨0, .asFrac⟩, ⟨0, .asFrac⟩, .spread⟩ ∧
    isOk (WidgetSize.make "exact" (some (-1)) none none "spread") = true := by
  constructor
  · with_unfolding_all rfl
  · with_unfolding_all decide

/-- C7 (corrected): construction with spaceDemand exact succeeds for every
supplied maxExtent, of any sign, storing the range [0, maxExtent]; only a
missing maxExtent is rejected, with the MissingExtent error. -/
theorem widgetSize_exact_extent_rule (q : ℚ) :
    WidgetSize.make "exact" (some q) none none "spread" =
      Except.ok ⟨.exact, some ⟨0, q⟩, ⟨0, .asFrac⟩, ⟨0, .asFrac⟩, .spread⟩ ∧
    WidgetSize.make "exact" none none none "spread" =
      Except.error .missingExtent := by
  constructor
  · with_unfolding_all rfl
  · with_unfolding_all rfl

/-- C4 counterexample: the scenario C container (exact children of extents
2 and 3, outer buffers 0.1 each in world units, inner buffer 0.2) shrinks
to extent 28/5 = 5.6, not 5.5: the gap the accounting leaves between the
two children is the sum of both children's outer buffers, 0.2, not a
single 0.1. -/
theorem scenarioC_extent_is_not_5_5 :
    solvedRange (shrinkChildren shrinkScenarioC 0) [] 0 = some ⟨0, 28/5⟩ ∧
    (28 : ℚ)/5 ≠ 11/2 := by
  constructor
  · with_unfolding_all decide
  · norm_num

/-- C4 (corrected): shrink resolution turns the scenario C container into
an exact widget of extent 5.6 = inner 0.2 + extent 2 + gap 0.2 (one full
outer buffer from each child) + extent 3 + inner 0.2; the children are
untouched at this phase. -/
theorem scenarioC_shrinks_to_5_6 :
    shrinkChildren shrinkScenarioC 0 =
      Except.ok (.frame "box"
        [⟨.exact, some ⟨0, 28/5⟩, ⟨1/5, .world⟩, ⟨0, .world⟩, .spread⟩] 0
        [.leaf "d1" [wsExact 2 (1/10) 0 .spread],
         .leaf "d2" [wsExact 3 (1/10) 0 .spread]]) := by
  with_unfolding_all rfl

/-- C2 failing input evaluated: the tree rootShrinkOverflow (extent-1 root,
zero buffers, one shrinkToFit child a whose contents need extent 5) is
accepted by the Geometry constructor, calcRanges(0) completes without
raising, and it places a at [-2, 3], far outside its parent's [0, 1]: the
capacity pre-check runs before shrink resolution and skips non-exact
children, so a's oversize goes undetected, contradicting the module's own
documented guarantee of spatial nesting. -/
theorem containment_violated_by_shrink_overflow :
    mkGeometry rootShrinkOverflow defaultEpsilon =
      Except.ok ⟨rootShrinkOverflow, defaultEpsilon⟩ ∧
    solvedRange (Geometry.calcRanges ⟨rootShrinkOverflow, defaultEpsilon⟩ 0) [] 0 =
      some ⟨0, 1⟩ ∧
    solvedRange (Geometry.calcRanges ⟨rootShrinkOverflow, defaultEpsilon⟩ 0) [0] 0 =
      some ⟨-2, 3⟩ ∧
    ¬ ((0 : ℚ) ≤ -2 ∧ (3 : ℚ) ≤ 1) := by
  refine ⟨?_, ?_, ?_, ?_⟩
  · with_unfolding_all rfl
  · with_unfolding_all decide
  · with_unfolding_all decide
  · norm_num

/-- C3 failing input evaluated: in the tree rootShrinkSiblings (extent-1
root, sequence direction 0, justify spread, zero outer buffers) the
shrink-resolved sibling a occupies [0, 5] and its sibling c [1/2, 1]:
their ranges overlap even though the required minimum gap
(a.outerBuffer + c.outerBuffer)/2 is 0, contradicting the module's own
documented guarantee that siblings do not overlap unless outer buffers are
negative. -/
theorem nonoverlap_violated_by_shrink_overflow :
    mkGeometry rootShrinkSiblings defaultEpsilon =
      Except.ok ⟨rootShrinkSiblings, defaultEpsilon⟩ ∧
    solvedRange (Geometry.calcRanges ⟨rootShrinkSiblings, defaultEpsilon⟩ 0) [0] 0 =
      some ⟨0, 5⟩ ∧
    solvedRange (Geometry.calcRanges ⟨rootShrinkSiblings, defaultEpsilon⟩ 0) [1] 0 =
      some ⟨1/2, 1⟩ ∧
    ((1 : ℚ)/2 < 5 ∧ (0 : ℚ) < 1) := by
  refine ⟨?_, ?_, ?_, ?_⟩
  · with_unfolding_all rfl
  · with_unfolding_all decide
  · with_unfolding_all decide
  · norm_num

/-- C1 counterexample: the tree rootCross is accepted by the Geometry
constructor and calcRanges(0) returns without raising, yet the child ends
with range [1, 0], whose hi = 0 is smaller than its lo = 1: the cross-axis
expand arm assigns the negative available space -1 as an extent with no
check, so the claimed invariant hi >= lo is false. -/
theorem policy_closure_hi_ge_lo_fails :
    mkGeometry rootCross defaultEpsilon = Except.ok ⟨rootCross, defaultEpsilon⟩ ∧
    isOk (Geometry.calcRanges ⟨rootCross, defaultEpsilon⟩ 0) = true ∧
    solvedRange (Geometry.calcRanges ⟨rootCross, defaultEpsilon⟩ 0) [0] 0 =
      some ⟨1, 0⟩ ∧
    ¬ ((1 : ℚ) ≤ 0) := by
  refine ⟨?_, ?_, ?_, ?_⟩
  · with_unfolding_all rfl
  · with_unfolding_all decide
  · with_unfolding_all decide
  · norm_num

/-- C6 counterexample: in the tree rootCross the container's available
space on axis 0 is 1 - 2*1 = -1 and it has one expandToFit child, yet
because its sequence direction (1) differs from the solved axis (0),
expand resolution does not raise NoSpaceToExpand: it assigns the child the
range [0, -1] and succeeds, refuting the claimed direction-independence of
the error. -/
theorem noSpaceToExpand_not_raised_cross_axis :
    (1 : ℚ) - 2 * 1 ≤ 0 ∧
    expandChildren rootCross 0 none =
      Except.ok (.frame "gui" [wsExact 1 0 1 .centre] 1
        [.leaf "kid" [⟨.exact, some ⟨0, -1⟩, ⟨0, .world⟩, ⟨0, .world⟩, .spread⟩]]) ∧
    isOk (Geometry.calcRanges ⟨rootCross, defaultEpsilon⟩ 0) = true := by
  refine ⟨?_, ?_, ?_⟩
  · norm_num
  · with_unfolding_all rfl
  · with_unfolding_all decide

/-- C5 counterexample: in the tree rootSpreadPair the leftover space is
10 - 2 = 8 > 0, yet spread justification places the first child at
[0, 1], flush against the container's low edge plus its (zero) inner
buffer, and the last child at [9, 10], flush against the high edge: the
whole leftover goes into the single gap between the two children, and no
extra gap is added before the first child or after the last, refuting the
claim that end gaps receive a share. -/
theorem spread_adds_no_end_gaps_counterexample :
    solvedRange (Geometry.calcRanges ⟨rootSpreadPair, defaultEpsilon⟩ 0) [0] 0 =
      some ⟨0, 1⟩ ∧
    solvedRange (Geometry.calcRanges ⟨rootSpreadPair, defaultEpsilon⟩ 0) [1] 0 =
      some ⟨9, 10⟩ ∧
    (0 : ℚ) < 8 := by
  refine ⟨?_, ?_, ?_⟩
  · with_unfolding_all decide
  · with_unfolding_all decide
  · norm_num

/-! Small rewriting lemmas for the Except monad, used to evaluate the
monadic solver code symbolically. -/

theorem okBind {α β : Type} (a : α) (f : α → Except LayoutError β) :
    (Except.ok a >>= f) = f a := rfl

theorem errBind {α β : Type} (e : LayoutError) (f : α → Except LayoutError β) :
    ((Except.error e : Except LayoutError α) >>= f) = Except.error e := rfl

theorem mapBind {α β γ : Type} (f : β → γ) (e : Except LayoutError α)
    (k : α → Except LayoutError β) :
    Except.map f (e >>= k) = e >>= fun a => Except.map f (k a) := by
  cases e <;> rfl

theorem mapOk {α β : Type} (f : α → β) (a : α) :
    Except.map f (Except.ok a : Except LayoutError α) = Except.ok (f a) := rfl

/-- C6 (corrected, the surviving direction): expand resolution on a
container whose sequence direction equals the solved axis, with at least
one expandToFit child, fails with NoSpaceToExpand whenever the computed
free space is not positive. (The cross-direction half of the original
claim is refuted by noSpaceToExpand_not_raised_cross_axis.) -/
theorem noSpaceToExpand_seq_direction (n : String) (sizes : List WidgetSize)
    (di : Nat) (kids : List Widget) (numExpand : Nat) (s : WidgetSize)
    (r : SimpleRange) (sF sL : WidgetSize) (availEnd : ℚ)
    (hk : kids ≠ [])
    (hcount : countExpandFold di kids 0 = Except.ok numExpand)
    (hpos : 0 < numExpand)
    (hs : getSizeL sizes di = Except.ok s)
    (hr : getRange s = Except.ok r)
    (hF : headSize di kids = Except.ok sF)
    (hL : lastSize di kids = Except.ok sL)
    (havail : expandOccupiedFold di kids
        ((r.hi - r.lo) - 2 * s.innerBuffer.value
          + sF.outerBuffer.value + sL.outerBuffer.value) = Except.ok availEnd)
    (hle : availEnd ≤ 0) :
    expandChildren (.frame n sizes di kids) di none =
      Except.error (.noSpaceToExpand di n) := by
  cases kids with
  | nil => exact absurd rfl hk
  | cons k kr =>
      simp only [expandChildren, applyExpandAssign, List.isEmpty_cons, Bool.false_eq_true,
        if_false]
      rw [hcount, okBind, if_pos hpos, hs, okBind, hr, okBind]
      simp only [if_true]
      rw [hF, okBind, hL, okBind, havail, okBind, if_pos hle]

/-- C6 witness: the concrete sequence-direction container rootSeqTight
(extent 1, inner buffer 1, one expandToFit child) has free space -1 and
expand resolution fails with NoSpaceToExpand. -/
theorem noSpaceToExpand_seq_direction_witness :
    expandChildren rootSeqTight 0 none = Except.error (.noSpaceToExpand 0 "gui") :=
  noSpaceToExpand_seq_direction "gui" [wsExact 1 0 1 .centre] 0
    [.leaf "kid" [wsExpand 0 0 .spread]] 1 (wsExact 1 0 1 .centre) ⟨0, 1⟩
    (wsExpand 0 0 .spread) (wsExpand 0 0 .spread) (-1)
    (by simp) (by with_unfolding_all rfl) (by norm_num)
    (by with_unfolding_all rfl) (by with_unfolding_all rfl)
    (by with_unfolding_all rfl) (by with_unfolding_all rfl)
    (by with_unfolding_all rfl) (by norm_num)

/-- C10 (confirmed): in position assignment for a sequence-direction
container with exactly one child, spread justification takes the same arm
as centre (the source tests childrenJustify == centre or numChildren == 1
before dividing by numChildren - 1), so the spread division is only
reached with more than one child and a single spread child is positioned
exactly as a centred one; only the stored justify tag can differ, so the
positioned child lists are equal. -/
theorem spread_single_child_is_centre (n : String) (sizes : List WidgetSize)
    (di : Nat) (c : Widget) (s : WidgetSize) (asn : Option SimpleRange)
    (hs : sizes.get? di = some s) :
    Except.map Widget.kids
      (calcPositionsofChildren
        (.frame n (sizes.set di { s with childrenJustify := .spread }) di [c]) di asn) =
    Except.map Widget.kids
      (calcPositionsofChildren
        (.frame n (sizes.set di { s with childrenJustify := .centre }) di [c]) di asn) := by
  have hget : ∀ j : ChildrenJustify,
      (sizes.set di { s with childrenJustify := j }).get? di =
        some { s with childrenJustify := j } := by
    intro j
    rw [List.get?_set_eq, hs]
    rfl
  cases asn with
  | none =>
      simp only [calcPositionsofChildren, applyRangeAssign, getSizeL, hget,
        List.isEmpty_cons, Bool.false_eq_true, if_false, okBind, mapBind, mapOk]
      simp [getRange, Widget.kids, mapBind, mapOk, okBind]
  | some r =>
      simp only [calcPositionsofChildren, applyRangeAssign, getSizeL, hget,
        List.isEmpty_cons, Bool.false_eq_true, if_false, okBind, mapBind, mapOk]
      simp only [List.get?_set_eq, List.get?_set_ne, hget]
      simp [getRange, Widget.kids, mapBind, mapOk, okBind]

/-- C10 witness: the theorem applied to a concrete single-child container
built from rootSpreadPair's spec; the spread and centre variants position
the child identically. -/
theorem spread_single_child_is_centre_witness :
    ([wsExact 10 0 0 .spread].get? 0 = some (wsExact 10 0 0 .spread)) ∧
    Except.map Widget.kids
      (calcPositionsofChildren
        (.frame "gui" ([wsExact 10 0 0 .spread].set 0
          { wsExact 10 0 0 .spread with childrenJustify := .spread }) 0
          [.leaf "e1" [wsExact 1 0 0 .spread]]) 0 none) =
    Except.map Widget.kids
      (calcPositionsofChildren
        (.frame "gui" ([wsExact 10 0 0 .spread].set 0
          { wsExact 10 0 0 .spread with childrenJustify := .centre }) 0
          [.leaf "e1" [wsExact 1 0 0 .spread]]) 0 none) :=
  ⟨rfl,
   spread_single_child_is_centre "gui" [wsExact 10 0 0 .spread] 0
     (.leaf "e1" [wsExact 1 0 0 .spread]) (wsExact 10 0 0 .spread) none rfl⟩

/-! Inversion lemmas for successful runs of the monadic solver code. -/

theorem bindEqOk {α β : Type} {e : Except LayoutError α}
    {k : α → Except LayoutError β} {b : β} :
    (e >>= k) = Except.ok b ↔ ∃ a, e = Except.ok a ∧ k a = Except.ok b := by
  cases e with
  | ok a => simp [okBind]
  | error msg => simp [errBind]

/-- A successful position assignment leaves the node's own sizes exactly as
the incoming assignment rewrote them. -/
theorem posTopSizes {c : Widget} {di : Nat} {asn : Option SimpleRange} {c' : Widget}
    (h : calcPositionsofChildren c di asn = Except.ok c') :
    c'.sizes = applyRangeAssign c.sizes di asn := by
  cases c with
  | leaf n sizes =>
      simp only [calcPositionsofChildren] at h
      cases h
      rfl
  | frame n sizes seqDir kids =>
      simp only [calcPositionsofChildren] at h
      by_cases hk : kids.isEmpty
      · rw [if_pos hk] at h
        cases h
        rfl
      · rw [if_neg hk] at h
        rcases bindEqOk.mp h with ⟨s, hs, h2⟩
        rcases bindEqOk.mp h2 with ⟨assigns, ha, h3⟩
        rcases bindEqOk.mp h3 with ⟨kids', hkk, h4⟩
        cases h4
        rfl

/-- Writing an assignment into sizes[di] stores exactly that range there. -/
theorem applyRangeAssign_get (sizes : List WidgetSize) (di : Nat)
    (a : SimpleRange) (s0 : WidgetSize) (h : sizes.get? di = some s0) :
    (applyRangeAssign sizes di (some a)).get? di = some { s0 with range := some a } := by
  simp only [applyRangeAssign, h]
  rw [List.get?_set_eq, h]
  rfl

/-- A successful packing loop produces one range per child. -/
theorem packAssignFold_length (di : Nat) (e : ℚ) :
    ∀ (kids : List Widget) (x : ℚ) (rs : List SimpleRange),
      packAssignFold di e kids x = Except.ok rs → rs.length = kids.length := by
  intro kids
  induction kids with
  | nil =>
      intro x rs h
      simp only [packAssignFold] at h
      cases h
      rfl
  | cons c rest ih =>
      intro x rs h
      simp only [packAssignFold] at h
      rcases bindEqOk.mp h with ⟨s, _, h2⟩
      rcases bindEqOk.mp h2 with ⟨r, _, h3⟩
      rcases bindEqOk.mp h3 with ⟨rs', hrec, h4⟩
      cases h4
      simp [ih _ _ hrec]

/-- Unfolding a successful packing step over the first child. -/
theorem packAssignFold_cons {di : Nat} {e : ℚ} {c : Widget} {rest : List Widget}
    {x : ℚ} {rs : List SimpleRange}
    (h : packAssignFold di e (c :: rest) x = Except.ok rs) :
    ∃ s r rs', c.size di = Except.ok s ∧ getRange s = Except.ok r ∧
      packAssignFold di e rest
        (x + s.outerBuffer.value + (r.hi - r.lo) + s.outerBuffer.value + e) =
        Except.ok rs' ∧
      rs = ⟨x + s.outerBuffer.value, x + s.outerBuffer.value + (r.hi - r.lo)⟩ :: rs' := by
  simp only [packAssignFold] at h
  rcases bindEqOk.mp h with ⟨s, hs, h2⟩
  rcases bindEqOk.mp h2 with ⟨r, hr, h3⟩
  rcases bindEqOk.mp h3 with ⟨rs', hrec, h4⟩
  cases h4
  exact ⟨s, r, rs', hs, hr, hrec, rfl⟩

/-- In a successful packing of the children, the gap between any two
consecutive assigned ranges is the sum of the two outer buffers plus the
extra gap parameter. -/
theorem packAssignFold_consecutive (di : Nat) (e : ℚ) :
    ∀ (kids : List Widget) (x : ℚ) (rs : List SimpleRange),
      packAssignFold di e kids x = Except.ok rs →
      ∀ i a b sa sb, kids.get? i = some a → kids.get? (i + 1) = some b →
        Widget.size a di = Except.ok sa → Widget.size b di = Except.ok sb →
        ∃ ra rb, rs.get? i = some ra ∧ rs.get? (i + 1) = some rb ∧
          rb.lo - ra.hi = sa.outerBuffer.value + sb.outerBuffer.value + e := by
  intro kids
  induction kids with
  | nil =>
      intro x rs h i a b sa sb hga
      simp at hga
  | cons c rest ih =>
      intro x rs h i a b sa sb hga hgb hsa hsb
      rcases packAssignFold_cons h with ⟨s, r, rs', hs, hr, hrec, rfl⟩
      cases i with
      | zero =>
          simp only [List.get?] at hga hgb
          cases hga
          cases rest with
          | nil => simp at hgb
          | cons b0 rest2 =>
              simp only [List.get?] at hgb
              cases hgb
              rcases packAssignFold_cons hrec with ⟨sb', rb', rs'', hsb', hrb', _, rfl⟩
              have hsa' : s = sa := by
                rw [hs] at hsa
                exact (Except.ok.injEq _ _).mp hsa
              have hsb'' : sb' = sb := by
                rw [hsb'] at hsb
                exact (Except.ok.injEq _ _).mp hsb
              subst hsa'
              subst hsb''
              refine ⟨_, _, rfl, rfl, ?_⟩
              simp only []
              ring
      | succ j =>
          simp only [List.get?] at hga hgb
          rcases ih _ _ hrec j a b sa sb hga hgb hsa hsb with ⟨ra, rb, h1, h2, h3⟩
          exact ⟨ra, rb, h1, h2, h3⟩

/-- A successful posKids run positions each child with exactly the range
the parent assigned to it. -/
theorem posKids_nth :
    ∀ (kids : List Widget) (di : Nat) (assigns : List SimpleRange)
      (kids' : List Widget),
      posKids kids di assigns = Except.ok kids' →
      ∀ i c a, kids.get? i = some c → assigns.get? i = some a →
        ∃ c', kids'.get? i = some c' ∧
          calcPositionsofChildren c di (some a) = Except.ok c' := by
  intro kids
  induction kids with
  | nil =>
      intro di assigns kids' h i c a hgc
      simp at hgc
  | cons c0 rest ih =>
      intro di assigns kids' h i c a hgc hga
      simp only [posKids] at h
      rcases bindEqOk.mp h with ⟨c1, hc1, h2⟩
      rcases bindEqOk.mp h2 with ⟨rest', hrest, h3⟩
      cases h3
      cases assigns with
      | nil => simp at hga
      | cons a0 as =>
          cases i with
          | zero =>
              simp only [List.get?] at hgc hga
              cases hgc
              cases hga
              simp only [List.head?] at hc1
              exact ⟨c1, rfl, hc1⟩
          | succ j =>
              simp only [List.get?] at hgc hga
              simp only [List.drop_succ_cons, List.drop_zero] at hrest
              rcases ih di as rest' hrest j c a hgc hga with ⟨c', hg', hp'⟩
              exact ⟨c', hg', hp'⟩

/-- Reading a child's solved range through rangeAtPath. -/
theorem rangeAtPath_frame (n : String) (sizes : List WidgetSize) (d : Nat)
    (kids : List Widget) (i di : Nat) (c : Widget) (h : kids.get? i = some c) :
    rangeAtPath (.frame n sizes d kids) [i] di =
      match c.sizes.get? di with
      | some s => s.range
      | none => none := by
  simp only [rangeAtPath, Widget.kids, h]

/-- A successful sizes[di] read is exactly a successful list lookup. -/
theorem getSizeL_ok {sizes : List WidgetSize} {di : Nat} {s : WidgetSize} :
    getSizeL sizes di = Except.ok s ↔ sizes.get? di = some s := by
  simp only [getSizeL]
  cases h : sizes.get? di <;> simp

/-- The range a parent assigns to a child in position assignment is the
child's final resolved range on that axis. -/
theorem posChildFinalRange {c : Widget} {di : Nat} {a : SimpleRange}
    {c' : Widget} {s0 : WidgetSize}
    (hp : calcPositionsofChildren c di (some a) = Except.ok c')
    (hs0 : c.sizes.get? di = some s0) :
    (match c'.sizes.get? di with
      | some s => s.range
      | none => none) = some a := by
  rw [posTopSizes hp, applyRangeAssign_get c.sizes di a s0 hs0]

/-- C5 (corrected): for a sequence-direction container with childrenJustify
spread and more than one child, position assignment puts the whole leftover
space into numChildren - 1 equal extra gaps between consecutive children
only: the first child starts exactly at the container's low edge plus the
inner buffer (no extra gap before it), and each consecutive pair of
children is separated by exactly the sum of their outer buffers plus the
per-gap share of the leftover. -/
theorem spread_between_children_only (n : String) (sizes : List WidgetSize)
    (di : Nat) (kids : List Widget) (s : WidgetSize) (r : SimpleRange) (t : ℚ)
    (sF sL : WidgetSize) (w' : Widget)
    (hs : getSizeL sizes di = Except.ok s)
    (hj : s.childrenJustify = .spread)
    (hn : 2 ≤ kids.length)
    (hr : getRange s = Except.ok r)
    (ht : sumExtentsAndBuffersFold di kids 0 = Except.ok t)
    (hF : headSize di kids = Except.ok sF)
    (hL : lastSize di kids = Except.ok sL)
    (hw : calcPositionsofChildren (.frame n sizes di kids) di none = Except.ok w') :
    (∃ r0 : SimpleRange, rangeAtPath w' [0] di = some r0 ∧
        r0.lo = r.lo + s.innerBuffer.value) ∧
    (∀ i : Nat, ∀ a b : Widget, ∀ sa sb : WidgetSize, ∀ ra rb : SimpleRange,
      kids.get? i = some a → kids.get? (i + 1) = some b →
      Widget.size a di = Except.ok sa → Widget.size b di = Except.ok sb →
      rangeAtPath w' [i] di = some ra → rangeAtPath w' [i + 1] di = some rb →
      rb.lo - ra.hi = sa.outerBuffer.value + sb.outerBuffer.value +
        ((r.hi - r.lo) - 2 * s.innerBuffer.value -
          (t - sF.outerBuffer.value - sL.outerBuffer.value)) /
          ((kids.length - 1 : Nat) : ℚ)) := by
  have hkne : kids.isEmpty = false := by
    cases kids with
    | nil => simp at hn
    | cons _ _ => rfl
  have hlen1 : ¬ (kids.length = 1) := by omega
  simp only [calcPositionsofChildren, applyRangeAssign, hkne, Bool.false_eq_true,
    if_false] at hw
  rcases bindEqOk.mp hw with ⟨s', hs', hw2⟩
  rw [hs] at hs'
  cases hs'
  rcases bindEqOk.mp hw2 with ⟨assigns, hpack, hw3⟩
  rcases bindEqOk.mp hw3 with ⟨kids', hposk, hw4⟩
  cases hw4
  simp only [if_true] at hpack
  rw [hj] at hpack
  simp only [reduceCtorEq, if_false, reduceIte] at hpack
  rw [ht, okBind, hF, okBind, hL, okBind] at hpack
  rw [if_neg (by simp [hlen1])] at hpack
  rw [hr, okBind] at hpack
  constructor
  · cases kids with
    | nil => simp at hn
    | cons k0 rest =>
        rcases packAssignFold_cons hpack with ⟨s0, r0, rs', hs0, hr0, _, rfl⟩
        have hk0 : k0.size di = Except.ok sF := hF
        rw [hk0] at hs0
        cases hs0
        have hg0 : (k0 :: rest).get? 0 = some k0 := rfl
        have ha0 : (SimpleRange.mk
            (r.lo + s.innerBuffer.value - sF.outerBuffer.value + sF.outerBuffer.value)
            (r.lo + s.innerBuffer.value - sF.outerBuffer.value + sF.outerBuffer.value
              + (r0.hi - r0.lo)) ::
            rs').get? 0 = some ⟨r.lo + s.innerBuffer.value - sF.outerBuffer.value
              + sF.outerBuffer.value,
              r.lo + s.innerBuffer.value - sF.outerBuffer.value + sF.outerBuffer.value
              + (r0.hi - r0.lo)⟩ := rfl
        rcases posKids_nth _ _ _ _ hposk 0 k0 _ hg0 ha0 with ⟨c0', hc0', hp0⟩
        have hs0k : k0.sizes.get? di = some sF := getSizeL_ok.mp hk0
        refine ⟨⟨r.lo + s.innerBuffer.value - sF.outerBuffer.value + sF.outerBuffer.value,
          r.lo + s.innerBuffer.value - sF.outerBuffer.value + sF.outerBuffer.value
            + (r0.hi - r0.lo)⟩, ?_, ?_⟩
        · rw [rangeAtPath_frame _ _ _ _ _ _ _ hc0']
          exact posChildFinalRange hp0 hs0k
        · simp only []
          ring
  · intro i a b sa sb ra rb hga hgb hsa hsb hra hrb
    rcases packAssignFold_consecutive _ _ _ _ _ hpack i a b sa sb hga hgb hsa hsb
      with ⟨ra', rb', hra', hrb', hgap⟩
    rcases posKids_nth _ _ _ _ hposk i a ra' hga hra' with ⟨ca', hca', hpa⟩
    rcases posKids_nth _ _ _ _ hposk (i + 1) b rb' hgb hrb' with ⟨cb', hcb', hpb⟩
    have hsa0 : a.sizes.get? di = some sa := getSizeL_ok.mp hsa
    have hsb0 : b.sizes.get? di = some sb := getSizeL_ok.mp hsb
    have hva : rangeAtPath (Widget.frame n sizes di kids') [i] di = some ra' := by
      rw [rangeAtPath_frame _ _ _ _ _ _ _ hca']
      exact posChildFinalRange hpa hsa0
    have hvb : rangeAtPath (Widget.frame n sizes di kids') [i + 1] di = some rb' := by
      rw [rangeAtPath_frame _ _ _ _ _ _ _ hcb']
      exact posChildFinalRange hpb hsb0
    rw [hva] at hra
    rw [hvb] at hrb
    cases hra
    cases hrb
    exact hgap

/-- A successful expand resolution leaves the node's own sizes exactly as
the incoming assignment rewrote them. -/
theorem expandTopSizes {c : Widget} {di : Nat} {asn : Option SimpleRange} {c' : Widget}
    (h : expandChildren c di asn = Except.ok c') :
    c'.sizes = applyExpandAssign c.sizes di asn := by
  cases c with
  | leaf n sizes =>
      simp only [expandChildren] at h
      cases h
      rfl
  | frame n sizes seqDir kids =>
      simp only [expandChildren] at h
      by_cases hk : kids.isEmpty
      · rw [if_pos hk] at h
        cases h
        rfl
      · rw [if_neg hk] at h
        rcases bindEqOk.mp h with ⟨m, hm, h2⟩
        by_cases hm0 : m > 0
        · rw [if_pos hm0] at h2
          rcases bindEqOk.mp h2 with ⟨s, hs, h3⟩
          rcases bindEqOk.mp h3 with ⟨r, hr, h4⟩
          by_cases hseq : seqDir = di
          · rw [if_pos hseq] at h4
            rcases bindEqOk.mp h4 with ⟨sF, _, h5⟩
            rcases bindEqOk.mp h5 with ⟨sL, _, h6⟩
            rcases bindEqOk.mp h6 with ⟨a2, _, h7⟩
            by_cases hle : a2 ≤ 0
            · rw [if_pos hle] at h7
              exact Except.noConfusion h7
            · rw [if_neg hle] at h7
              rcases bindEqOk.mp h7 with ⟨kids', _, h8⟩
              cases h8
              rfl
          · rw [if_neg hseq] at h4
            rcases bindEqOk.mp h4 with ⟨kids', _, h5⟩
            cases h5
            rfl
        · rw [if_neg hm0] at h2
          rcases bindEqOk.mp h2 with ⟨kids', _, h3⟩
          cases h3
          rfl

/-- A successful counting loop read the spec of every child. -/
theorem countExpandFold_sizes (di : Nat) :
    ∀ (kids : List Widget) (acc m : Nat),
      countExpandFold di kids acc = Except.ok m →
      ∀ c ∈ kids, ∃ s, c.size di = Except.ok s := by
  intro kids
  induction kids with
  | nil =>
      intro acc m h c hc
      simp at hc
  | cons c0 rest ih =>
      intro acc m h c hc
      simp only [countExpandFold] at h
      rcases bindEqOk.mp h with ⟨s0, hs0, h2⟩
      rcases List.mem_cons.mp hc with rfl | hc'
      · exact ⟨s0, hs0⟩
      · exact ih _ _ h2 c hc'

/-- The counting loop never decreases its accumulator. -/
theorem countExpandFold_le (di : Nat) :
    ∀ (kids : List Widget) (acc m : Nat),
      countExpandFold di kids acc = Except.ok m → acc ≤ m := by
  intro kids
  induction kids with
  | nil =>
      intro acc m h
      simp only [countExpandFold] at h
      cases h
      exact Nat.le_refl _
  | cons c0 rest ih =>
      intro acc m h
      simp only [countExpandFold] at h
      rcases bindEqOk.mp h with ⟨s0, hs0, h2⟩
      exact Nat.le_trans (Nat.le_add_right _ _) (ih _ _ h2)

/-- If the counting loop reports no expanding children, none of the
children is expandToFit at di. -/
theorem countExpandFold_zero (di : Nat) :
    ∀ (kids : List Widget) (acc : Nat),
      countExpandFold di kids acc = Except.ok acc →
      ∀ c ∈ kids, ∀ s, c.size di = Except.ok s → s.spaceDemand ≠ .expandToFit := by
  intro kids
  induction kids with
  | nil =>
      intro acc h c hc
      simp at hc
  | cons c0 rest ih =>
      intro acc h c hc s hcs
      simp only [countExpandFold] at h
      rcases bindEqOk.mp h with ⟨s0, hs0, h2⟩
      have hle := countExpandFold_le di rest _ _ h2
      have hzero : (if s0.spaceDemand = SpaceDemand.expandToFit then 1 else 0) = 0 := by
        by_cases hd : s0.spaceDemand = SpaceDemand.expandToFit
        · rw [if_pos hd] at hle
          omega
        · rw [if_neg hd]
      rw [hzero, Nat.add_zero] at h2
      have hnot0 : s0.spaceDemand ≠ SpaceDemand.expandToFit := by
        intro hd
        rw [if_pos hd] at hzero
        exact Nat.one_ne_zero hzero
      rcases List.mem_cons.mp hc with rfl | hc'
      · rw [hs0] at hcs
        cases hcs
        exact hnot0
      · exact ih _ h2 c hc' s hcs

/-- Reading topDemand? through a successful sizes lookup. -/
theorem topDemand?_some {w : Widget} {di : Nat} {s : WidgetSize}
    (h : w.sizes.get? di = some s) : topDemand? w di = some s.spaceDemand := by
  simp only [topDemand?, h]

/-- topDemand?_some specialized to a frame given by its components. -/
theorem topDemand?_frame {n : String} {sizes : List WidgetSize} {d : Nat}
    {kids : List Widget} {di : Nat} {s : WidgetSize} (h : sizes.get? di = some s) :
    topDemand? (Widget.frame n sizes d kids) di = some s.spaceDemand :=
  topDemand?_some h

mutual

/-- A tree passing Geometry._checkSpaceDemands satisfies the shrink
legality predicate. -/
theorem checkLegal (di : Nat) (isRoot : Bool) (w : Widget)
    (h : checkSpaceDemands isRoot w di = Except.ok ()) :
    legalShrinks di w = true := by
  cases w with
  | leaf n sizes =>
      simp only [checkSpaceDemands] at h
      rcases bindEqOk.mp h with ⟨u, hroot, h2⟩
      rcases bindEqOk.mp h2 with ⟨s, hs, h3⟩
      by_cases hd : s.spaceDemand = SpaceDemand.shrinkToFit
      · rw [if_pos hd] at h3
        exact Except.noConfusion h3
      · have hget : (Widget.leaf n sizes).sizes.get? di = some s := getSizeL_ok.mp hs
        have htd := topDemand?_some hget
        simp only [legalShrinks, htd]
        simp [hd]
  | frame n sizes d kids =>
      simp only [checkSpaceDemands] at h
      rcases bindEqOk.mp h with ⟨u, hroot, h2⟩
      rcases checkLegalKids di n sizes kids h2 with ⟨hlk, hcond⟩
      simp only [legalShrinks, hlk, Bool.and_true]
      by_cases hts : topDemand? (Widget.frame n sizes d kids) di = some SpaceDemand.shrinkToFit
      · simp only [topDemand?, Widget.sizes] at hts
        rcases hps : sizes.get? di with _ | ps
        · rw [hps] at hts
          exact Option.noConfusion hts
        · rw [hps] at hts
          have hdem : ps.spaceDemand = SpaceDemand.shrinkToFit := Option.some.inj hts
          have := hcond ps (getSizeL_ok.mpr hps) hdem
          simp [this]
      · simp [hts]

/-- The child loop of Geometry._checkSpaceDemands yields legality for every
child, and, when the parent is shrinkToFit, the absence of expandToFit
children. -/
theorem checkLegalKids (di : Nat) (pn : String) (psizes : List WidgetSize)
    (kids : List Widget)
    (h : checkDemandsKids pn psizes di kids = Except.ok ()) :
    legalShrinksKids di kids = true ∧
    (∀ ps, getSizeL psizes di = Except.ok ps →
      ps.spaceDemand = SpaceDemand.shrinkToFit →
      kids.any (fun c => decide (topDemand? c di = some SpaceDemand.expandToFit))
        = false) := by
  cases kids with
  | nil =>
      exact ⟨rfl, fun ps _ _ => rfl⟩
  | cons c rest =>
      simp only [checkDemandsKids] at h
      rcases bindEqOk.mp h with ⟨ps, hps, h2⟩
      rcases bindEqOk.mp h2 with ⟨bad, hbad, h3⟩
      cases bad with
      | true =>
          rw [if_pos rfl] at h3
          exact Except.noConfusion h3
      | false =>
          rw [if_neg Bool.false_ne_true] at h3
          rcases bindEqOk.mp h3 with ⟨u2, hc, hrest⟩
          have hlc := checkLegal di false c hc
          rcases checkLegalKids di pn psizes rest hrest with ⟨hlrest, hcondrest⟩
          refine ⟨?_, ?_⟩
          · simp [legalShrinksKids, hlc, hlrest]
          · intro ps' hps' hshr
            rw [hps] at hps'
            have hpseq : ps = ps' := by
              cases hps'
              rfl
            subst hpseq
            rw [if_pos hshr] at hbad
            rcases bindEqOk.mp hbad with ⟨cs, hcs, hok⟩
            have hcsn : decide (cs.spaceDemand = SpaceDemand.expandToFit) = false :=
              Except.ok.inj hok
            have hne : cs.spaceDemand ≠ SpaceDemand.expandToFit := by
              simpa using hcsn
            have hgc : c.sizes.get? di = some cs := getSizeL_ok.mp hcs
            have htd : topDemand? c di = some cs.spaceDemand := topDemand?_some hgc
            have hrest' := hcondrest ps hps hshr
            simp [List.any_cons, hrest', htd, hne]

end

/-- A root passing the legality pre-pass is not expandToFit. -/
theorem checkRootNotExpand (di : Nat) (w : Widget)
    (h : checkSpaceDemands true w di = Except.ok ()) :
    ∃ s, Widget.size w di = Except.ok s ∧ s.spaceDemand ≠ .expandToFit := by
  cases w <;>
  · simp only [checkSpaceDemands] at h
    rcases bindEqOk.mp h with ⟨u, hroot, h2⟩
    simp only [if_true] at hroot
    rcases bindEqOk.mp hroot with ⟨s, hs, h3⟩
    by_cases hd : s.spaceDemand = SpaceDemand.expandToFit
    · rw [if_pos hd] at h3
      exact Except.noConfusion h3
    · exact ⟨s, hs, hd⟩

/-- The per-axis loop of Geometry.__init__ ran the legality pre-pass and
the root-range check on every listed axis. -/
theorem checkDimsLoop_mem (root : Widget) :
    ∀ (dims : List Nat), checkDimsLoop root dims = Except.ok () →
      ∀ di ∈ dims, checkSpaceDemands true root di = Except.ok () ∧
        ∃ s, Widget.size root di = Except.ok s ∧ s.range.isSome = true := by
  intro dims
  induction dims with
  | nil =>
      intro h di hdi
      simp at hdi
  | cons d0 rest ih =>
      intro h di hdi
      simp only [checkDimsLoop] at h
      rcases bindEqOk.mp h with ⟨u, hchk, h2⟩
      rcases bindEqOk.mp h2 with ⟨s, hs, h3⟩
      rcases List.mem_cons.mp hdi with rfl | hdi'
      · refine ⟨hchk, s, hs, ?_⟩
        cases hr : s.range with
        | none =>
            rw [hr] at h3
            exact Except.noConfusion h3
        | some r => simp [hr]
      · cases hr : s.range with
        | none =>
            rw [hr] at h3
            exact Except.noConfusion h3
        | some r =>
            rw [hr] at h3
            exact ih h3 di hdi'

/-- topDemand? as an Option.map of the raw lookup. -/
theorem topDemand?_eq_map (w : Widget) (dj : Nat) :
    topDemand? w dj = (w.sizes.get? dj).map (fun s => s.spaceDemand) := by
  simp only [topDemand?]
  cases h : w.sizes.get? dj <;> rfl

/-- topRangeIsSome only depends on the stored range at the axis. -/
theorem topRangeIsSome_eq {w w' : Widget} {dj : Nat}
    (h : (w'.sizes.get? dj).map (fun s => s.range) =
         (w.sizes.get? dj).map (fun s => s.range)) :
    topRangeIsSome w' dj = topRangeIsSome w dj := by
  simp only [topRangeIsSome]
  cases h1 : w'.sizes.get? dj <;> cases h2 : w.sizes.get? dj <;> rw [h1, h2] at h <;>
    simp_all

/-- Buffer normalization of a sizes list preserves its length and, at every
index, the stored demand and range (only buffers change). -/
theorem setBuffersAxes_spec (sizes : List WidgetSize) (scale : ℚ) :
    ∀ (numDims : Nat) (sizes' : List WidgetSize),
      setBuffersAxes sizes scale numDims = Except.ok sizes' →
      sizes'.length = sizes.length ∧
      ∀ j, (sizes'.get? j).map (fun s => s.spaceDemand) =
             (sizes.get? j).map (fun s => s.spaceDemand) ∧
           (sizes'.get? j).map (fun s => s.range) =
             (sizes.get? j).map (fun s => s.range) := by
  intro numDims
  induction numDims with
  | zero =>
      intro sizes' h
      simp only [setBuffersAxes] at h
      cases h
      exact ⟨rfl, fun j => ⟨rfl, rfl⟩⟩
  | succ n ih =>
      intro sizes' h
      simp only [setBuffersAxes] at h
      rcases bindEqOk.mp h with ⟨mid, hmid, h2⟩
      rcases hg : mid.get? n with _ | s
      · rw [hg] at h2
        exact Except.noConfusion h2
      · rw [hg] at h2
        have hs' : mid.set n { s with
            outerBuffer := s.outerBuffer.setWorld scale
            innerBuffer := s.innerBuffer.setWorld scale } = sizes' := Except.ok.inj h2
        rcases ih mid hmid with ⟨hlen, hspec⟩
        subst hs'
        refine ⟨by rw [List.length_set]; exact hlen, ?_⟩
        intro j
        by_cases hj : n = j
        · subst hj
          rcases hspec n with ⟨h1, h2'⟩
          rw [List.get?_set_eq, hg]
          constructor
          · rw [← h1, hg]
            rfl
          · rw [← h2', hg]
            rfl
        · rw [List.get?_set_ne _ _ hj]
          exact hspec j

mutual

/-- Buffer normalization preserves the tree's shape, demands, ranges and
shrink legality; only buffer values change. -/
theorem setBuffers_spec (w : Widget) (scale : ℚ) (numDims : Nat) (w' : Widget)
    (h : setBuffersForChildren w scale numDims = Except.ok w') :
    w'.sizes.length = w.sizes.length ∧
    (∀ dj, topDemand? w' dj = topDemand? w dj) ∧
    (∀ dj, topRangeIsSome w' dj = topRangeIsSome w dj) ∧
    (∀ dj, legalShrinks dj w = true → legalShrinks dj w' = true) := by
  cases w with
  | leaf n sizes =>
      simp only [setBuffersForChildren] at h
      rcases bindEqOk.mp h with ⟨sizes2, hsz, h2⟩
      cases h2
      rcases setBuffersAxes_spec sizes scale numDims sizes2 hsz with ⟨hlen, hspec⟩
      refine ⟨hlen, ?_, ?_, ?_⟩
      · intro dj
        rw [topDemand?_eq_map, topDemand?_eq_map]
        exact (hspec dj).1
      · intro dj
        exact topRangeIsSome_eq ((hspec dj).2)
      · intro dj hl
        have htd : topDemand? (Widget.leaf n sizes2) dj = topDemand? (Widget.leaf n sizes) dj := by
          rw [topDemand?_eq_map, topDemand?_eq_map]
          exact (hspec dj).1
        simp only [legalShrinks, htd] at *
        exact hl
  | frame n sizes d kids =>
      simp only [setBuffersForChildren] at h
      rcases bindEqOk.mp h with ⟨sizes2, hsz, h2⟩
      rcases bindEqOk.mp h2 with ⟨kids2, hkz, h3⟩
      cases h3
      rcases setBuffersAxes_spec sizes scale numDims sizes2 hsz with ⟨hlen, hspec⟩
      rcases setBuffersKids_spec kids scale numDims kids2 hkz with ⟨hlk, hany⟩
      have htd : ∀ dj, topDemand? (Widget.frame n sizes2 d kids2) dj =
          topDemand? (Widget.frame n sizes d kids) dj := by
        intro dj
        rw [topDemand?_eq_map, topDemand?_eq_map]
        exact (hspec dj).1
      refine ⟨hlen, htd, ?_, ?_⟩
      · intro dj
        exact topRangeIsSome_eq ((hspec dj).2)
      · intro dj hl
        simp only [legalShrinks, htd dj, hany dj] at *
        rcases Bool.and_eq_true_iff.mp hl with ⟨hl1, hl2⟩
        rw [Bool.and_eq_true_iff]
        exact ⟨hl1, hlk dj hl2⟩

/-- setBuffers_spec over a child list. -/
theorem setBuffersKids_spec (kids : List Widget) (scale : ℚ) (numDims : Nat)
    (kids' : List Widget)
    (h : setBuffersKids kids scale numDims = Except.ok kids') :
    (∀ dj, legalShrinksKids dj kids = true → legalShrinksKids dj kids' = true) ∧
    (∀ dj, (kids'.any (fun c => decide (topDemand? c dj = some SpaceDemand.expandToFit))) =
           (kids.any (fun c => decide (topDemand? c dj = some SpaceDemand.expandToFit)))) := by
  cases kids with
  | nil =>
      simp only [setBuffersKids] at h
      cases h
      exact ⟨fun _ h => h, fun _ => rfl⟩
  | cons c rest =>
      simp only [setBuffersKids] at h
      rcases bindEqOk.mp h with ⟨c2, hc2, h2⟩
      rcases bindEqOk.mp h2 with ⟨rest2, hrest2, h3⟩
      cases h3
      rcases setBuffers_spec c scale numDims c2 hc2 with ⟨_, htd, _, hleg⟩
      rcases setBuffersKids_spec rest scale numDims rest2 hrest2 with ⟨hlk, hany⟩
      constructor
      · intro dj hl
        simp only [legalShrinksKids] at *
        rcases Bool.and_eq_true_iff.mp hl with ⟨hl1, hl2⟩
        rw [Bool.and_eq_true_iff]
        exact ⟨hleg dj hl1, hlk dj hl2⟩
      · intro dj
        simp only [List.any_cons, htd dj, hany dj]

end

/-- The two facts Geometry.__init__ establishes on success: the per-axis
checks passed on the original tree, and the stored root is its
buffer-normalized copy. -/
theorem mkGeometry_inv {root : Widget} {eps : ℚ} {g : Geometry}
    (h : mkGeometry root eps = Except.ok g) :
    checkDimsLoop root (List.range root.sizes.length) = Except.ok () ∧
    ∃ scale, setBuffersForChildren root scale root.sizes.length =
      Except.ok g.rootWidget := by
  simp only [mkGeometry] at h
  rcases bindEqOk.mp h with ⟨u, hchk, h2⟩
  rcases bindEqOk.mp h2 with ⟨scale, hscale, h3⟩
  rcases bindEqOk.mp h3 with ⟨root', hsb, h4⟩
  cases h4
  exact ⟨hchk, scale, hsb⟩

/-- The four phases a successful calcRanges ran, in order. -/
theorem calcRanges_inv {g : Geometry} {di : Nat} {t' : Widget}
    (h : g.calcRanges di = Except.ok t') :
    checkSizeChildren g.epsilon g.rootWidget di = Except.ok () ∧
    ∃ t1 t2, shrinkChildren g.rootWidget di = Except.ok t1 ∧
      expandChildren t1 di none = Except.ok t2 ∧
      calcPositionsofChildren t2 di none = Except.ok t' := by
  simp only [Geometry.calcRanges] at h
  rcases bindEqOk.mp h with ⟨u, hchk, h2⟩
  rcases bindEqOk.mp h2 with ⟨t1, h1, h3⟩
  rcases bindEqOk.mp h3 with ⟨t2, h4, h5⟩
  exact ⟨hchk, t1, t2, h1, h4, h5⟩

mutual

/-- Shrink resolution on a shrink-legal tree leaves no shrinkToFit node:
the node's own demand is either untouched or rewritten to exact, and a
present own range stays present. -/
theorem shrink_spec (di : Nat) (w : Widget) (w' : Widget)
    (h : shrinkChildren w di = Except.ok w')
    (hl : legalShrinks di w = true) :
    allNodes (notShrinkAt di) w' = true ∧
    (topDemand? w' di = topDemand? w di ∨ topDemand? w' di = some SpaceDemand.exact) ∧
    (topRangeIsSome w di = true → topRangeIsSome w' di = true) := by
  cases w with
  | leaf n sizes =>
      simp only [shrinkChildren] at h
      cases h
      refine ⟨?_, Or.inl rfl, fun hr => hr⟩
      simp only [allNodes]
      simpa [legalShrinks, notShrinkAt] using hl
  | frame n sizes d kids =>
      simp only [shrinkChildren] at h
      rcases bindEqOk.mp h with ⟨out, hout, h2⟩
      obtain ⟨kids', m⟩ := out
      simp only [legalShrinks] at hl
      rcases Bool.and_eq_true_iff.mp hl with ⟨hltop, hlkids⟩
      have hks := shrinkKids_spec di kids kids' m hout hlkids
      by_cases hm : m > 0
      · rw [if_pos hm] at h2
        cases h2
        have htop : notShrinkAt di (Widget.frame n sizes d kids) = true := by
          have hanyk := hks.2 hm
          rcases Bool.or_eq_true_iff.mp hltop with hnot | hnotany
          · simpa [notShrinkAt] using hnot
          · rw [Bool.not_eq_true'] at hnotany
            rw [hnotany] at hanyk
            exact Bool.noConfusion hanyk
        refine ⟨?_, Or.inl rfl, fun hr => hr⟩
        simp only [allNodes, Bool.and_eq_true_iff]
        exact ⟨htop, hks.1⟩
      · rw [if_neg hm] at h2
        rcases bindEqOk.mp h2 with ⟨s, hs, h3⟩
        have hget : sizes.get? di = some s := getSizeL_ok.mp hs
        by_cases hd : s.spaceDemand = SpaceDemand.shrinkToFit
        · rw [if_neg (by simp [hd])] at h3
          rcases bindEqOk.mp h3 with ⟨total, htot, h4⟩
          cases h4
          have hset : (sizes.set di { s with
              spaceDemand := SpaceDemand.exact
              range := some ⟨0, total + 2 * s.innerBuffer.value⟩ }).get? di =
              some { s with
                spaceDemand := SpaceDemand.exact
                range := some ⟨0, total + 2 * s.innerBuffer.value⟩ } := by
            rw [List.get?_set_eq, hget]
            rfl
          refine ⟨?_, Or.inr (topDemand?_frame hset), fun _ => ?_⟩
          · simp only [allNodes, Bool.and_eq_true_iff]
            refine ⟨?_, hks.1⟩
            simp [notShrinkAt, topDemand?_frame hset]
          · simp only [topRangeIsSome, Widget.sizes]
            rw [hset]
            rfl
        · rw [if_pos (by simp [hd])] at h3
          cases h3
          refine ⟨?_, Or.inl rfl, fun hr => hr⟩
          simp only [allNodes, Bool.and_eq_true_iff]
          refine ⟨?_, hks.1⟩
          simp [notShrinkAt, topDemand?_frame hget, hd]

/-- shrink_spec over a child list, together with the source's
count-after-recursion of expandToFit children: a positive count certifies
an expandToFit child in the original list. -/
theorem shrinkKids_spec (di : Nat) (kids : List Widget) (kids' : List Widget)
    (m : Nat) (h : shrinkKids kids di = Except.ok (kids', m))
    (hl : legalShrinksKids di kids = true) :
    allNodesKids (notShrinkAt di) kids' = true ∧
    (0 < m → kids.any
      (fun c => decide (topDemand? c di = some SpaceDemand.expandToFit)) = true) := by
  cases kids with
  | nil =>
      simp only [shrinkKids] at h
      cases Except.ok.inj h
      exact ⟨rfl, fun h0 => absurd h0 (Nat.lt_irrefl 0)⟩
  | cons c rest =>
      simp only [shrinkKids] at h
      rcases bindEqOk.mp h with ⟨c1, hc1, h2⟩
      rcases bindEqOk.mp h2 with ⟨cs, hcs, h3⟩
      rcases bindEqOk.mp h3 with ⟨out, hout, h4⟩
      obtain ⟨rest', m'⟩ := out
      cases Except.ok.inj h4
      simp only [legalShrinksKids] at hl
      rcases Bool.and_eq_true_iff.mp hl with ⟨hlc, hlrest⟩
      rcases shrink_spec di c c1 hc1 hlc with ⟨hall_c, hdem_c, _⟩
      rcases shrinkKids_spec di rest rest' m' hout hlrest with ⟨hall_rest, hexp_rest⟩
      constructor
      · simp only [allNodesKids, Bool.and_eq_true_iff]
        exact ⟨hall_c, hall_rest⟩
      · intro hpos
        by_cases hexp : cs.spaceDemand = SpaceDemand.expandToFit
        · have htd1 : topDemand? c1 di = some SpaceDemand.expandToFit := by
            rw [topDemand?_some (getSizeL_ok.mp hcs), hexp]
          have htdc : topDemand? c di = some SpaceDemand.expandToFit := by
            rcases hdem_c with heq | hex
            · rw [← heq]
              exact htd1
            · rw [htd1] at hex
              exact absurd (Option.some.inj hex) (by simp)
          simp [List.any_cons, htdc]
        · rw [if_neg hexp, Nat.zero_add] at hpos
          have := hexp_rest hpos
          simp [List.any_cons, this]

end

/-- A node-wise property at the root of a tree it holds everywhere in. -/
theorem allNodes_top {p : Widget → Bool} {w : Widget} (h : allNodes p w = true) :
    p w = true := by
  cases w with
  | leaf n s => simpa [allNodes] using h
  | frame n s d kids =>
      simp only [allNodes, Bool.and_eq_true_iff] at h
      exact h.1

/-- A node-wise property over a child list holds of each member. -/
theorem allNodesKids_mem {p : Widget → Bool} :
    ∀ {kids : List Widget}, allNodesKids p kids = true →
      ∀ c ∈ kids, allNodes p c = true := by
  intro kids
  induction kids with
  | nil =>
      intro h c hc
      simp at hc
  | cons c0 rest ih =>
      intro h c hc
      simp only [allNodesKids, Bool.and_eq_true_iff] at h
      rcases List.mem_cons.mp hc with rfl | hc'
      · exact h.1
      · exact ih h.2 c hc'

/-- exactAt through a successful lookup of an exact spec. -/
theorem exactAt_of_sizes {w : Widget} {di : Nat} {s0 : WidgetSize}
    (h : w.sizes.get? di = some s0)
    (hd : s0.spaceDemand = SpaceDemand.exact) : exactAt di w = true := by
  simp only [exactAt, h]
  simp [hd]

/-- exactAt is vacuously true on a missing axis. -/
theorem exactAt_of_none {w : Widget} {di : Nat}
    (h : w.sizes.get? di = none) : exactAt di w = true := by
  simp only [exactAt, h]

/-- The expand-phase assignment is the identity on a missing axis. -/
theorem applyExpandAssign_none_axis {csizes : List WidgetSize} {di : Nat}
    (asn : Option SimpleRange) (hg : csizes.get? di = none) :
    applyExpandAssign csizes di asn = csizes := by
  cases asn with
  | none => rfl
  | some a => simp only [applyExpandAssign, hg]

mutual

/-- Expand resolution on a tree with no shrinkToFit node makes every
child of every frame exact at di. -/
theorem expand_spec (di : Nat) (w : Widget) (asn : Option SimpleRange) (w' : Widget)
    (h : expandChildren w di asn = Except.ok w')
    (hns : allNodes (notShrinkAt di) w = true) :
    allNodes (kidsExactAt di) w' = true := by
  cases w with
  | leaf n sizes =>
      simp only [expandChildren] at h
      cases h
      simp [allNodes, kidsExactAt, Widget.kids]
  | frame n sizes seqDir kids =>
      simp only [expandChildren] at h
      simp only [allNodes, Bool.and_eq_true_iff] at hns
      rcases hns with ⟨hnst, hnsk⟩
      cases kids with
      | nil =>
          simp only [List.isEmpty_nil, if_true] at h
          cases h
          simp [allNodes, allNodesKids, kidsExactAt, Widget.kids]
      | cons k0 krest =>
          simp only [List.isEmpty_cons, Bool.false_eq_true, if_false] at h
          rcases bindEqOk.mp h with ⟨m, hcount, h2⟩
          by_cases hm : m > 0
          · rw [if_pos hm] at h2
            rcases bindEqOk.mp h2 with ⟨s, hs, h3⟩
            rcases bindEqOk.mp h3 with ⟨r, hr, h4⟩
            by_cases hseq : seqDir = di
            · rw [if_pos hseq] at h4
              rcases bindEqOk.mp h4 with ⟨sF, _, h5⟩
              rcases bindEqOk.mp h5 with ⟨sL, _, h6⟩
              rcases bindEqOk.mp h6 with ⟨a2, _, h7⟩
              by_cases ha : a2 ≤ 0
              · rw [if_pos ha] at h7
                exact Except.noConfusion h7
              · rw [if_neg ha] at h7
                rcases bindEqOk.mp h7 with ⟨kids2, hek, h8⟩
                cases h8
                rcases expandKids_spec di (k0 :: krest) _ kids2 hek hnsk
                  (fun hc => Option.noConfusion hc) with ⟨hall, htops⟩
                simp only [allNodes, Bool.and_eq_true_iff]
                exact ⟨by simpa [kidsExactAt, Widget.kids] using htops, hall⟩
            · rw [if_neg hseq] at h4
              rcases bindEqOk.mp h4 with ⟨kids2, hek, h5⟩
              cases h5
              rcases expandKids_spec di (k0 :: krest) _ kids2 hek hnsk
                (fun hc => Option.noConfusion hc) with ⟨hall, htops⟩
              simp only [allNodes, Bool.and_eq_true_iff]
              exact ⟨by simpa [kidsExactAt, Widget.kids] using htops, hall⟩
          · rw [if_neg hm] at h2
            rcases bindEqOk.mp h2 with ⟨kids2, hek, h3⟩
            cases h3
            have hm0 : m = 0 := by omega
            subst hm0
            have hzero := countExpandFold_zero di (k0 :: krest) 0 hcount
            rcases expandKids_spec di (k0 :: krest) none kids2 hek hnsk
              (fun _ => hzero) with ⟨hall, htops⟩
            simp only [allNodes, Bool.and_eq_true_iff]
            exact ⟨by simpa [kidsExactAt, Widget.kids] using htops, hall⟩

/-- expand_spec over a child list: besides the recursive property, every
processed child itself ends exact at di (its incoming demand was not
shrinkToFit, and either the parent assigned it a range because it was
expandToFit, or it was not expandToFit at all). -/
theorem expandKids_spec (di : Nat) (kids : List Widget) (asn : Option SimpleRange)
    (kids' : List Widget)
    (h : expandKids kids di asn = Except.ok kids')
    (hns : allNodesKids (notShrinkAt di) kids = true)
    (hnone : asn = none → ∀ c ∈ kids, ∀ s, Widget.size c di = Except.ok s →
      s.spaceDemand ≠ SpaceDemand.expandToFit) :
    allNodesKids (kidsExactAt di) kids' = true ∧
    kids'.all (fun c' => exactAt di c') = true := by
  cases kids with
  | nil =>
      simp only [expandKids] at h
      cases h
      exact ⟨rfl, rfl⟩
  | cons c rest =>
      simp only [expandKids] at h
      rcases bindEqOk.mp h with ⟨c1, hc1, h2⟩
      rcases bindEqOk.mp h2 with ⟨rest1, hrest, h3⟩
      cases h3
      simp only [allNodesKids, Bool.and_eq_true_iff] at hns
      rcases hns with ⟨hnsc, hnsrest⟩
      have hrec := expand_spec di c asn c1 hc1 hnsc
      have hrestspec := expandKids_spec di rest asn rest1 hrest hnsrest
        (fun ha c' hc' => hnone ha c' (List.mem_cons_of_mem _ hc'))
      have hctop : notShrinkAt di c = true := allNodes_top hnsc
      have hexact : exactAt di c1 = true := by
        have htop := expandTopSizes hc1
        rcases hg : c.sizes.get? di with _ | s0
        · have : c1.sizes.get? di = none := by
            rw [htop, applyExpandAssign_none_axis asn hg]
            exact hg
          exact exactAt_of_none this
        · have hnshr : s0.spaceDemand ≠ SpaceDemand.shrinkToFit := by
            simp only [notShrinkAt, topDemand?_some hg] at hctop
            simpa using hctop
          cases asn with
          | none =>
              have hnexp : s0.spaceDemand ≠ SpaceDemand.expandToFit :=
                hnone rfl c (List.mem_cons_self _ _) s0 (getSizeL_ok.mpr hg)
              have : c1.sizes.get? di = some s0 := by
                rw [htop]
                exact hg
              refine exactAt_of_sizes this ?_
              cases hdm : s0.spaceDemand
              · exact absurd hdm hnshr
              · rfl
              · exact absurd hdm hnexp
          | some a =>
              by_cases hex : s0.spaceDemand = SpaceDemand.expandToFit
              · have : c1.sizes.get? di =
                    some { s0 with spaceDemand := SpaceDemand.exact, range := some a } := by
                  rw [htop]
                  simp only [applyExpandAssign, hg, if_pos hex]
                  rw [List.get?_set_eq, hg]
                  rfl
                exact exactAt_of_sizes this rfl
              · have : c1.sizes.get? di = some s0 := by
                  rw [htop]
                  simp only [applyExpandAssign, hg, if_neg hex]
                refine exactAt_of_sizes this ?_
                cases hdm : s0.spaceDemand
                · exact absurd hdm hnshr
                · rfl
                · exact absurd hdm hex
      constructor
      · simp only [allNodesKids, Bool.and_eq_true_iff]
        exact ⟨hrec, hrestspec.1⟩
      · simp only [List.all_cons, Bool.and_eq_true_iff]
        exact ⟨hexact, hrestspec.2⟩

end

/-- A successful toHighest packing produces one range per child. -/
theorem packHighAssignFold_length (di : Nat) :
    ∀ (kids : List Widget) (x : ℚ) (rs : List SimpleRange),
      packHighAssignFold di kids x = Except.ok rs → rs.length = kids.length := by
  intro kids
  induction kids with
  | nil =>
      intro x rs h
      simp only [packHighAssignFold] at h
      cases h
      rfl
  | cons c rest ih =>
      intro x rs h
      simp only [packHighAssignFold] at h
      rcases bindEqOk.mp h with ⟨s, _, h2⟩
      rcases bindEqOk.mp h2 with ⟨r, _, h3⟩
      rcases bindEqOk.mp h3 with ⟨rs', hrec, h4⟩
      cases h4
      simp [ih _ _ hrec]

/-- A successful cross-direction assignment produces one range per child. -/
theorem crossAssignFold_length (di : Nat) (mode : ChildrenJustify) (base : ℚ) :
    ∀ (kids : List Widget) (rs : List SimpleRange),
      crossAssignFold di mode base kids = Except.ok rs → rs.length = kids.length := by
  intro kids
  induction kids with
  | nil =>
      intro rs h
      simp only [crossAssignFold] at h
      cases h
      rfl
  | cons c rest ih =>
      intro rs h
      simp only [crossAssignFold] at h
      rcases bindEqOk.mp h with ⟨s, _, h2⟩
      rcases bindEqOk.mp h2 with ⟨r, _, h3⟩
      rcases bindEqOk.mp h3 with ⟨rs', hrec, h4⟩
      cases h4
      simp [ih _ hrec]

/-- A child positioned under a parent-assigned range ends up ranged. -/
theorem rangedAfterAssign {c : Widget} {di : Nat} {a : SimpleRange} {c' : Widget}
    (h : calcPositionsofChildren c di (some a) = Except.ok c') :
    rangedAt di c' = true := by
  have htop := posTopSizes h
  rcases hg : c.sizes.get? di with _ | s0
  · have hn : c'.sizes.get? di = none := by
      rw [htop]
      simp only [applyRangeAssign, hg]
    simp only [rangedAt, hn]
  · have hsm : c'.sizes.get? di = some { s0 with range := some a } := by
      rw [htop]
      exact applyRangeAssign_get _ _ _ _ hg
    simp only [rangedAt, hsm]
    rfl

/-- Position assignment only writes ranges: exactness at di is untouched. -/
theorem exactAt_applyRange {c c' : Widget} {di : Nat} {asn : Option SimpleRange}
    (htop : c'.sizes = applyRangeAssign c.sizes di asn) :
    exactAt di c' = exactAt di c := by
  cases asn with
  | none =>
      simp only [exactAt]
      rw [htop]
      rfl
  | some a =>
      rcases hg : c.sizes.get? di with _ | s0
      · simp only [exactAt]
        rw [htop]
        simp only [applyRangeAssign, hg]
      · simp only [exactAt]
        rw [htop, applyRangeAssign_get _ _ _ _ hg, hg]

mutual

/-- Position assignment gives every child of every frame a resolved range
at di, and preserves exactness of every node. -/
theorem positions_spec (di : Nat) (w : Widget) (asn : Option SimpleRange)
    (w' : Widget) (h : calcPositionsofChildren w di asn = Except.ok w') :
    allNodes (kidsRangedAt di) w' = true ∧
    (allNodes (exactAt di) w = true → allNodes (exactAt di) w' = true) := by
  cases w with
  | leaf n sizes =>
      simp only [calcPositionsofChildren] at h
      cases h
      constructor
      · simp [allNodes, kidsRangedAt, Widget.kids]
      · intro hx
        simp only [allNodes] at hx ⊢
        rw [@exactAt_applyRange (Widget.leaf n sizes)
          (Widget.leaf n (applyRangeAssign sizes di asn)) di asn rfl]
        exact hx
  | frame n sizes seqDir kids =>
      simp only [calcPositionsofChildren] at h
      cases kids with
      | nil =>
          simp only [List.isEmpty_nil, if_true] at h
          cases h
          constructor
          · simp [allNodes, allNodesKids, kidsRangedAt, Widget.kids]
          · intro hx
            simp only [allNodes, allNodesKids, Bool.and_eq_true_iff] at hx ⊢
            refine ⟨?_, trivial⟩
            rw [@exactAt_applyRange (Widget.frame n sizes seqDir [])
              (Widget.frame n (applyRangeAssign sizes di asn) seqDir []) di asn rfl]
            exact hx.1
      | cons k0 krest =>
          simp only [List.isEmpty_cons, Bool.false_eq_true, if_false] at h
          rcases bindEqOk.mp h with ⟨s, hs, h2⟩
          rcases bindEqOk.mp h2 with ⟨assigns, hassigns, h3⟩
          rcases bindEqOk.mp h3 with ⟨kids2, hpos, h4⟩
          cases h4
          have hlen : assigns.length = (k0 :: krest).length := by
            split at hassigns
            · split at hassigns
              · rcases bindEqOk.mp hassigns with ⟨r, _, ha2⟩
                rcases bindEqOk.mp ha2 with ⟨sF, _, ha3⟩
                exact packAssignFold_length di 0 _ _ _ ha3
              · split at hassigns
                · rcases bindEqOk.mp hassigns with ⟨r, _, ha2⟩
                  rcases bindEqOk.mp ha2 with ⟨sL, _, ha3⟩
                  rcases bindEqOk.mp ha3 with ⟨rsRev, hp, ha4⟩
                  cases ha4
                  rw [List.length_reverse]
                  rw [packHighAssignFold_length di _ _ _ hp]
                  exact List.length_reverse _
                · rcases bindEqOk.mp hassigns with ⟨t, _, ha2⟩
                  rcases bindEqOk.mp ha2 with ⟨sF, _, ha3⟩
                  rcases bindEqOk.mp ha3 with ⟨sL, _, ha4⟩
                  split at ha4
                  · rcases bindEqOk.mp ha4 with ⟨r, _, ha5⟩
                    exact packAssignFold_length di 0 _ _ _ ha5
                  · rcases bindEqOk.mp ha4 with ⟨r, _, ha5⟩
                    exact packAssignFold_length di _ _ _ _ ha5
            · rcases bindEqOk.mp hassigns with ⟨r, _, ha2⟩
              exact crossAssignFold_length di _ _ _ _ ha2
          rcases posKids_spec2 di (k0 :: krest) assigns kids2 hlen hpos
            with ⟨hallk, htops, hex⟩
          constructor
          · simp only [allNodes, Bool.and_eq_true_iff]
            refine ⟨?_, hallk⟩
            simpa [kidsRangedAt, Widget.kids] using htops
          · intro hx
            simp only [allNodes, Bool.and_eq_true_iff] at hx ⊢
            refine ⟨?_, hex hx.2⟩
            rw [@exactAt_applyRange (Widget.frame n sizes seqDir (k0 :: krest))
              (Widget.frame n (applyRangeAssign sizes di asn) seqDir kids2) di asn rfl]
            exact hx.1

/-- positions_spec over a child list with one assignment per child. -/
theorem posKids_spec2 (di : Nat) (kids : List Widget) (assigns : List SimpleRange)
    (kids' : List Widget) (hlen : assigns.length = kids.length)
    (h : posKids kids di assigns = Except.ok kids') :
    allNodesKids (kidsRangedAt di) kids' = true ∧
    kids'.all (fun c' => rangedAt di c') = true ∧
    (allNodesKids (exactAt di) kids = true → allNodesKids (exactAt di) kids' = true) := by
  cases kids with
  | nil =>
      simp only [posKids] at h
      cases h
      exact ⟨rfl, rfl, fun _ => rfl⟩
  | cons c rest =>
      cases assigns with
      | nil => simp at hlen
      | cons a as =>
          simp only [posKids, List.head?_cons, List.drop_succ_cons, List.drop_zero] at h
          rcases bindEqOk.mp h with ⟨c1, hc1, h2⟩
          rcases bindEqOk.mp h2 with ⟨rest1, hrest, h3⟩
          cases h3
          have hlen' : as.length = rest.length := by
            simpa using hlen
          rcases positions_spec di c (some a) c1 hc1 with ⟨hrec, hexc⟩
          rcases posKids_spec2 di rest as rest1 hlen' hrest with ⟨hallrest, htoprest, hexrest⟩
          refine ⟨?_, ?_, ?_⟩
          · simp only [allNodesKids, Bool.and_eq_true_iff]
            exact ⟨hrec, hallrest⟩
          · simp only [List.all_cons, Bool.and_eq_true_iff]
            exact ⟨rangedAfterAssign hc1, htoprest⟩
          · intro hx
            simp only [allNodesKids, Bool.and_eq_true_iff] at hx ⊢
            exact ⟨hexc hx.1, hexrest hx.2⟩

end

mutual

/-- Two node-wise properties combine pointwise over a whole tree. -/
theorem allNodes_and (p q r : Widget → Bool)
    (hpq : ∀ w, p w = true → q w = true → r w = true) :
    ∀ w, allNodes p w = true → allNodes q w = true → allNodes r w = true := by
  intro w
  cases w with
  | leaf n s =>
      intro hp hq
      simp only [allNodes] at hp hq ⊢
      exact hpq _ hp hq
  | frame n s d kids =>
      intro hp hq
      simp only [allNodes, Bool.and_eq_true_iff] at hp hq ⊢
      exact ⟨hpq _ hp.1 hq.1, allNodesKids_and p q r hpq kids hp.2 hq.2⟩

/-- allNodes_and over a child list. -/
theorem allNodesKids_and (p q r : Widget → Bool)
    (hpq : ∀ w, p w = true → q w = true → r w = true) :
    ∀ kids, allNodesKids p kids = true → allNodesKids q kids = true →
      allNodesKids r kids = true := by
  intro kids
  cases kids with
  | nil =>
      intro _ _
      rfl
  | cons c rest =>
      intro hp hq
      simp only [allNodesKids, Bool.and_eq_true_iff] at hp hq ⊢
      exact ⟨allNodes_and p q r hpq c hp.1 hq.1, allNodesKids_and p q r hpq rest hp.2 hq.2⟩

end

mutual

/-- A tree whose root is exact and in which every frame's children are
exact is exact everywhere. -/
theorem allExact_assemble (di : Nat) (w : Widget)
    (htop : exactAt di w = true) (hkids : allNodes (kidsExactAt di) w = true) :
    allNodes (exactAt di) w = true := by
  cases w with
  | leaf n s =>
      simpa [allNodes] using htop
  | frame n s d kids =>
      simp only [allNodes, Bool.and_eq_true_iff] at hkids ⊢
      refine ⟨htop, ?_⟩
      exact allExact_assembleKids di kids
        (by simpa [kidsExactAt, Widget.kids] using hkids.1) hkids.2

/-- allExact_assemble over a child list. -/
theorem allExact_assembleKids (di : Nat) (kids : List Widget)
    (htops : kids.all (fun c => exactAt di c) = true)
    (hkids : allNodesKids (kidsExactAt di) kids = true) :
    allNodesKids (exactAt di) kids = true := by
  cases kids with
  | nil => rfl
  | cons c rest =>
      simp only [List.all_cons, allNodesKids, Bool.and_eq_true_iff] at htops hkids ⊢
      exact ⟨allExact_assemble di c htops.1 hkids.1,
        allExact_assembleKids di rest htops.2 hkids.2⟩

end

mutual

/-- A tree whose root is ranged and in which every frame's children are
ranged is ranged everywhere. -/
theorem allRanged_assemble (di : Nat) (w : Widget)
    (htop : rangedAt di w = true) (hkids : allNodes (kidsRangedAt di) w = true) :
    allNodes (rangedAt di) w = true := by
  cases w with
  | leaf n s =>
      simpa [allNodes] using htop
  | frame n s d kids =>
      simp only [allNodes, Bool.and_eq_true_iff] at hkids ⊢
      refine ⟨htop, ?_⟩
      exact allRanged_assembleKids di kids
        (by simpa [kidsRangedAt, Widget.kids] using hkids.1) hkids.2

/-- allRanged_assemble over a child list. -/
theorem allRanged_assembleKids (di : Nat) (kids : List Widget)
    (htops : kids.all (fun c => rangedAt di c) = true)
    (hkids : allNodesKids (kidsRangedAt di) kids = true) :
    allNodesKids (rangedAt di) kids = true := by
  cases kids with
  | nil => rfl
  | cons c rest =>
      simp only [List.all_cons, allNodesKids, Bool.and_eq_true_iff] at htops hkids ⊢
      exact ⟨allRanged_assemble di c htops.1 hkids.1,
        allRanged_assembleKids di rest htops.2 hkids.2⟩

end

/-- A node both exact and ranged at di is solved at di. -/
theorem solvedAt_of (di : Nat) (w : Widget)
    (he : exactAt di w = true) (hr : rangedAt di w = true) : solvedAt di w = true := by
  simp only [solvedAt]
  cases hg : w.sizes.get? di with
  | none => rfl
  | some s =>
      simp only [exactAt, hg] at he
      simp only [rangedAt, hg] at hr
      simp [he, hr]

/-- A node whose own demand reads exact is exactAt. -/
theorem exactAt_of_topDemand {w : Widget} {di : Nat}
    (h : topDemand? w di = some SpaceDemand.exact) : exactAt di w = true := by
  cases hg : w.sizes.get? di with
  | none => exact exactAt_of_none hg
  | some s =>
      rw [topDemand?_some hg] at h
      exact exactAt_of_sizes hg (Option.some.inj h)

/-- A non-vacuously ranged node is rangedAt. -/
theorem rangedAt_of_top {w : Widget} {di : Nat} (h : topRangeIsSome w di = true) :
    rangedAt di w = true := by
  simp only [topRangeIsSome] at h
  simp only [rangedAt]
  cases hg : w.sizes.get? di with
  | none => rfl
  | some s =>
      rw [hg] at h
      exact h

/-- topRangeIsSome only reads the sizes list. -/
theorem topRangeIsSome_sizesCongr {w w' : Widget} {di : Nat}
    (h : w'.sizes = w.sizes) : topRangeIsSome w' di = topRangeIsSome w di := by
  simp only [topRangeIsSome, h]

/-- exactAt only reads the sizes list. -/
theorem exactAt_sizesCongr {w w' : Widget} {di : Nat}
    (h : w'.sizes = w.sizes) : exactAt di w' = exactAt di w := by
  simp only [exactAt, h]

/-- C1 (corrected): for every tree accepted by the Geometry constructor and
every axis di, a calcRanges(di) call that returns without raising leaves
every widget with spaceDemand exact and a non-None range on di. (The
original claim's additional hi >= lo is refuted by
policy_closure_hi_ge_lo_fails.) -/
theorem policy_closure_amended (root : Widget) (eps : ℚ) (g : Geometry) (di : Nat)
    (t' : Widget) (hg : mkGeometry root eps = Except.ok g)
    (hc : g.calcRanges di = Except.ok t') :
    allNodes (solvedAt di) t' = true := by
  rcases mkGeometry_inv hg with ⟨hdims, scale, hsb⟩
  rcases calcRanges_inv hc with ⟨hchk, t1, t2, hshr, hexp, hpos⟩
  rcases setBuffers_spec root scale root.sizes.length g.rootWidget hsb
    with ⟨hlen, htd, htr, hleg⟩
  by_cases hdi : di < root.sizes.length
  · rcases checkDimsLoop_mem root _ hdims di (List.mem_range.mpr hdi)
      with ⟨hcheck, s0, hs0, hr0⟩
    have hlegal : legalShrinks di g.rootWidget = true :=
      hleg di (checkLegal di true root hcheck)
    rcases checkRootNotExpand di root hcheck with ⟨sR, hsR, hsRne⟩
    have hrootrange : topRangeIsSome g.rootWidget di = true := by
      rw [htr di]
      simp only [topRangeIsSome, getSizeL_ok.mp hs0]
      exact hr0
    rcases shrink_spec di g.rootWidget t1 hshr hlegal with ⟨hnoshrink, hdem1, hrange1⟩
    have hTopDemandRoot : topDemand? g.rootWidget di = topDemand? root di := htd di
    have hrootdem : topDemand? root di = some sR.spaceDemand :=
      topDemand?_some (getSizeL_ok.mp hsR)
    have ht1exact : exactAt di t1 = true := by
      have ht1ns : notShrinkAt di t1 = true := allNodes_top hnoshrink
      rcases hdem1 with heq | hex
      · rw [hTopDemandRoot, hrootdem] at heq
        have hns : sR.spaceDemand ≠ SpaceDemand.shrinkToFit := by
          simp only [notShrinkAt, heq] at ht1ns
          simpa using ht1ns
        have hd : sR.spaceDemand = SpaceDemand.exact := by
          cases hdm : sR.spaceDemand
          · exact absurd hdm hns
          · rfl
          · exact absurd hdm hsRne
        exact exactAt_of_topDemand (by rw [heq, hd])
      · exact exactAt_of_topDemand hex
    have ht1range : topRangeIsSome t1 di = true := hrange1 hrootrange
    have hexactkids := expand_spec di t1 none t2 hexp hnoshrink
    have ht2sizes : t2.sizes = t1.sizes := expandTopSizes hexp
    have ht2exact : exactAt di t2 = true := by
      rw [exactAt_sizesCongr ht2sizes]
      exact ht1exact
    have ht2range : topRangeIsSome t2 di = true := by
      rw [topRangeIsSome_sizesCongr ht2sizes]
      exact ht1range
    have hallexact2 : allNodes (exactAt di) t2 = true :=
      allExact_assemble di t2 ht2exact hexactkids
    rcases positions_spec di t2 none t' hpos with ⟨hranged, hexactpres⟩
    have hallexact' : allNodes (exactAt di) t' = true := hexactpres hallexact2
    have ht'sizes : t'.sizes = t2.sizes := posTopSizes hpos
    have ht'ranged : rangedAt di t' = true := by
      refine rangedAt_of_top ?_
      rw [topRangeIsSome_sizesCongr ht'sizes]
      exact ht2range
    have hallranged : allNodes (rangedAt di) t' = true :=
      allRanged_assemble di t' ht'ranged hranged
    exact allNodes_and (exactAt di) (rangedAt di) (solvedAt di)
      (fun w => solvedAt_of di w) t' hallexact' hallranged
  · have hge : root.sizes.length ≤ di := Nat.le_of_not_lt hdi
    have hglen : g.rootWidget.sizes.length ≤ di := by
      rw [hlen]
      exact hge
    have hnone : g.rootWidget.sizes.get? di = none := List.get?_eq_none.mpr hglen
    cases hgw : g.rootWidget with
    | leaf n szs =>
        rw [hgw] at hshr hnone
        have hszs : szs.get? di = none := hnone
        simp only [shrinkChildren] at hshr
        cases hshr
        simp only [expandChildren] at hexp
        cases hexp
        simp only [calcPositionsofChildren] at hpos
        cases hpos
        simp only [allNodes, solvedAt, Widget.sizes, applyRangeAssign, applyExpandAssign]
        rw [hszs]
    | frame n szs d kids =>
        rw [hgw] at hchk hshr hnone
        have hszs : szs.get? di = none := hnone
        cases kids with
        | nil =>
            simp only [shrinkChildren, shrinkKids, okBind] at hshr
            rw [if_neg (by omega)] at hshr
            simp only [getSizeL, hszs, errBind] at hshr
            exact Except.noConfusion hshr
        | cons k0 krest =>
            simp only [checkSizeChildren, List.isEmpty_cons, Bool.false_eq_true,
              if_false] at hchk
            simp only [getSizeL, hszs, errBind] at hchk
            exact Except.noConfusion hchk

/-- C1 witness: the amended theorem applied to the concrete accepted tree
rootSpreadPair, whose axis-0 solve succeeds with the solved tree
rootSpreadPairSolved. -/
theorem policy_closure_amended_witness :
    mkGeometry rootSpreadPair defaultEpsilon =
      Except.ok ⟨rootSpreadPair, defaultEpsilon⟩ ∧
    Geometry.calcRanges ⟨rootSpreadPair, defaultEpsilon⟩ 0 =
      Except.ok rootSpreadPairSolved ∧
    allNodes (solvedAt 0) rootSpreadPairSolved = true :=
  ⟨by with_unfolding_all rfl, by with_unfolding_all rfl,
   policy_closure_amended rootSpreadPair defaultEpsilon
     ⟨rootSpreadPair, defaultEpsilon⟩ 0 rootSpreadPairSolved
     (by with_unfolding_all rfl) (by with_unfolding_all rfl)⟩

/-! Commuting lemmas: each solver phase on axis di factors through the
axis-di view, so the outcome of a solve depends on nothing outside that
view. -/

/-- Congruence of bind in the continuation. -/
theorem bindCongr {α β : Type} (e : Except LayoutError α)
    (k1 k2 : α → Except LayoutError β) (h : ∀ a, k1 a = k2 a) :
    (e >>= k1) = (e >>= k2) := by
  cases e with
  | error err => rfl
  | ok a => exact h a

/-- Mapping over a failure. -/
theorem mapErr {α β : Type} (f : α → β) (e : LayoutError) :
    Except.map f (Except.error e : Except LayoutError α) = Except.error e := rfl

/-- Reading through a stored spec coincides with indexing the sizes list. -/
theorem getSizeV_get (sizes : List WidgetSize) (di : Nat) :
    getSizeV di (sizes.get? di) = getSizeL sizes di := by
  cases h : sizes.get? di <;> simp only [getSizeV, getSizeL, h]

/-- The view preserves the widget name. -/
theorem name_axisView (di : Nat) (w : Widget) :
    (axisView di w).name = w.name := by
  cases w <;> rfl

/-- The view preserves the axis-di size read. -/
theorem size_axisView (di : Nat) (w : Widget) :
    (axisView di w).size di = w.size di := by
  cases w with
  | leaf n sizes =>
      simp only [axisView, AxisView.size, AxisView.spec, Widget.size,
        Widget.sizes]
      exact getSizeV_get sizes di
  | frame n sizes d kids =>
      simp only [axisView, AxisView.size, AxisView.spec, Widget.size,
        Widget.sizes]
      exact getSizeV_get sizes di

/-- The child views are the mapped views. -/
theorem axisViewKids_eq_map (di : Nat) (l : List Widget) :
    axisViewKids di l = l.map (axisView di) := by
  induction l with
  | nil => rfl
  | cons c rest ih => simp only [axisViewKids, List.map, ih]

/-- The view preserves child-list emptiness. -/
theorem axisViewKids_isEmpty (di : Nat) (l : List Widget) :
    (axisViewKids di l).isEmpty = l.isEmpty := by
  cases l <;> rfl

/-- The view preserves child-list length. -/
theorem axisViewKids_length (di : Nat) (l : List Widget) :
    (axisViewKids di l).length = l.length := by
  rw [axisViewKids_eq_map, List.length_map]

/-- The view commutes with list reversal. -/
theorem axisViewKids_reverse (di : Nat) (l : List Widget) :
    axisViewKids di l.reverse = (axisViewKids di l).reverse := by
  rw [axisViewKids_eq_map, axisViewKids_eq_map, List.map_reverse]

/-- The view commutes with getLastD. -/
theorem axisViewKids_getLastD (di : Nat) (l : List Widget) (a : Widget) :
    (axisViewKids di l).getLastD (axisView di a) = axisView di (l.getLastD a) := by
  induction l generalizing a with
  | nil => rfl
  | cons c rest ih =>
      simp only [axisViewKids, List.getLastD_cons]
      exact ih c

/-- headSize factors through the view. -/
theorem headSize_view (di : Nat) (l : List Widget) :
    headSizeV di (axisViewKids di l) = headSize di l := by
  cases l with
  | nil => rfl
  | cons c rest =>
      simp only [axisViewKids, headSizeV, headSize]
      exact size_axisView di c

/-- lastSize factors through the view. -/
theorem lastSize_view (di : Nat) (l : List Widget) :
    lastSizeV di (axisViewKids di l) = lastSize di l := by
  simp only [lastSizeV, lastSize, axisViewKids_eq_map, List.getLast?_map]
  cases l.getLast? with
  | none => rfl
  | some k => exact size_axisView di k

/-- seqOccupiedFold factors through the view. -/
theorem seqOccupiedFold_view (di : Nat) (l : List Widget) (acc : ℚ) :
    seqOccupiedFoldV di (axisViewKids di l) acc = seqOccupiedFold di l acc := by
  induction l generalizing acc with
  | nil => rfl
  | cons c rest ih =>
      simp only [axisViewKids, seqOccupiedFoldV, seqOccupiedFold, size_axisView]
      refine bindCongr _ _ _ fun s => ?_
      refine bindCongr _ _ _ fun acc1 => ?_
      exact ih _

/-- crossFitCheck factors through the view. -/
theorem crossFitCheck_view (eps : ℚ) (di : Nat) (pn : String) (avail : ℚ)
    (l : List Widget) :
    crossFitCheckV eps di pn avail (axisViewKids di l) =
      crossFitCheck eps di pn avail l := by
  induction l with
  | nil => rfl
  | cons c rest ih =>
      simp only [axisViewKids, crossFitCheckV, crossFitCheck, size_axisView,
        name_axisView]
      refine bindCongr _ _ _ fun _ => ?_
      exact ih

/-- sumExtentsAndBuffersFold factors through the view. -/
theorem sumExtentsAndBuffersFold_view (di : Nat) (l : List Widget) (acc : ℚ) :
    sumExtentsAndBuffersFoldV di (axisViewKids di l) acc =
      sumExtentsAndBuffersFold di l acc := by
  induction l generalizing acc with
  | nil => rfl
  | cons c rest ih =>
      simp only [axisViewKids, sumExtentsAndBuffersFoldV,
        sumExtentsAndBuffersFold, size_axisView]
      refine bindCongr _ _ _ fun s => ?_
      refine bindCongr _ _ _ fun r => ?_
      exact ih _

/-- maxExtentFold factors through the view. -/
theorem maxExtentFold_view (di : Nat) (l : List Widget) (acc : ℚ) :
    maxExtentFoldV di (axisViewKids di l) acc = maxExtentFold di l acc := by
  induction l generalizing acc with
  | nil => rfl
  | cons c rest ih =>
      simp only [axisViewKids, maxExtentFoldV, maxExtentFold, size_axisView]
      refine bindCongr _ _ _ fun s => ?_
      refine bindCongr _ _ _ fun r => ?_
      exact ih _

/-- countExpandFold factors through the view. -/
theorem countExpandFold_view (di : Nat) (l : List Widget) (acc : Nat) :
    countExpandFoldV di (axisViewKids di l) acc = countExpandFold di l acc := by
  induction l generalizing acc with
  | nil => rfl
  | cons c rest ih =>
      simp only [axisViewKids, countExpandFoldV, countExpandFold, size_axisView]
      refine bindCongr _ _ _ fun s => ?_
      exact ih _

/-- expandOccupiedFold factors through the view. -/
theorem expandOccupiedFold_view (di : Nat) (l : List Widget) (acc : ℚ) :
    expandOccupiedFoldV di (axisViewKids di l) acc =
      expandOccupiedFold di l acc := by
  induction l generalizing acc with
  | nil => rfl
  | cons c rest ih =>
      simp only [axisViewKids, expandOccupiedFoldV, expandOccupiedFold,
        size_axisView]
      refine bindCongr _ _ _ fun s => ?_
      refine bindCongr _ _ _ fun acc1 => ?_
      exact ih _

/-- packAssignFold factors through the view. -/
theorem packAssignFold_view (di : Nat) (eg : ℚ) (l : List Widget) (x : ℚ) :
    packAssignFoldV di eg (axisViewKids di l) x = packAssignFold di eg l x := by
  induction l generalizing x with
  | nil => rfl
  | cons c rest ih =>
      simp only [axisViewKids, packAssignFoldV, packAssignFold, size_axisView]
      refine bindCongr _ _ _ fun s => ?_
      refine bindCongr _ _ _ fun r => ?_
      rw [ih]

/-- packHighAssignFold factors through the view. -/
theorem packHighAssignFold_view (di : Nat) (l : List Widget) (x : ℚ) :
    packHighAssignFoldV di (axisViewKids di l) x = packHighAssignFold di l x := by
  induction l generalizing x with
  | nil => rfl
  | cons c rest ih =>
      simp only [axisViewKids, packHighAssignFoldV, packHighAssignFold,
        size_axisView]
      refine bindCongr _ _ _ fun s => ?_
      refine bindCongr _ _ _ fun r => ?_
      rw [ih]

/-- crossAssignFold factors through the view. -/
theorem crossAssignFold_view (di : Nat) (mode : ChildrenJustify) (base : ℚ)
    (l : List Widget) :
    crossAssignFoldV di mode base (axisViewKids di l) =
      crossAssignFold di mode base l := by
  induction l with
  | nil => rfl
  | cons c rest ih =>
      simp only [axisViewKids, crossAssignFoldV, crossAssignFold, size_axisView]
      refine bindCongr _ _ _ fun s => ?_
      refine bindCongr _ _ _ fun r => ?_
      rw [ih]

/-- applyExpandAssign factors through the view at the written axis. -/
theorem applyExpandAssign_view (sizes : List WidgetSize) (di : Nat)
    (asn : Option SimpleRange) :
    applyExpandAssignV (sizes.get? di) asn = (applyExpandAssign sizes di asn).get? di := by
  cases asn with
  | none => rfl
  | some a =>
      simp only [applyExpandAssignV, applyExpandAssign]
      cases hg : sizes.get? di with
      | none => simp only [hg]
      | some s =>
          dsimp only
          by_cases hd : s.spaceDemand = SpaceDemand.expandToFit
          · rw [if_pos hd, if_pos hd, List.get?_set_eq, hg]
            rfl
          · rw [if_neg hd, if_neg hd, hg]

/-- applyRangeAssign factors through the view at the written axis. -/
theorem applyRangeAssign_view (sizes : List WidgetSize) (di : Nat)
    (asn : Option SimpleRange) :
    applyRangeAssignV (sizes.get? di) asn = (applyRangeAssign sizes di asn).get? di := by
  cases asn with
  | none => rfl
  | some a =>
      simp only [applyRangeAssignV, applyRangeAssign]
      cases hg : sizes.get? di with
      | none => simp only [hg]
      | some s =>
          dsimp only
          rw [List.get?_set_eq, hg]
          rfl

/-! Frame lemmas for C9: the three mutating phases of an axis-di solve
touch only the axis-di slot of each sizes list, so the axis-dj view of the
tree is untouched for every other axis dj. -/

/-- The expand-phase assignment does not touch other axes. -/
theorem applyExpandAssign_get_ne (sizes : List WidgetSize) (di dj : Nat)
    (asn : Option SimpleRange) (hne : dj ≠ di) :
    (applyExpandAssign sizes di asn).get? dj = sizes.get? dj := by
  cases asn with
  | none => rfl
  | some a =>
      simp only [applyExpandAssign]
      cases sizes.get? di with
      | none => rfl
      | some s =>
          dsimp only
          by_cases hd : s.spaceDemand = SpaceDemand.expandToFit
          · rw [if_pos hd]
            exact List.get?_set_ne _ _ (Ne.symm hne)
          · rw [if_neg hd]

/-- The position-phase assignment does not touch other axes. -/
theorem applyRangeAssign_get_ne (sizes : List WidgetSize) (di dj : Nat)
    (asn : Option SimpleRange) (hne : dj ≠ di) :
    (applyRangeAssign sizes di asn).get? dj = sizes.get? dj := by
  cases asn with
  | none => rfl
  | some a =>
      simp only [applyRangeAssign]
      cases sizes.get? di with
      | none => rfl
      | some s =>
          dsimp only
          exact List.get?_set_ne _ _ (Ne.symm hne)

mutual

/-- Shrink resolution leaves every other axis's view unchanged. -/
theorem shrink_axis_frame (di dj : Nat) (hne : dj ≠ di) (w w' : Widget)
    (h : shrinkChildren w di = Except.ok w') : axisView dj w' = axisView dj w := by
  cases w with
  | leaf n sizes =>
      simp only [shrinkChildren] at h
      cases h
      rfl
  | frame n sizes d kids =>
      simp only [shrinkChildren] at h
      rcases bindEqOk.mp h with ⟨out, hout, h2⟩
      have hkv : axisViewKids dj out.1 = axisViewKids dj kids :=
        shrinkKids_axis_frame di dj hne kids out hout
      by_cases hm : out.2 > 0
      · rw [if_pos hm] at h2
        cases h2
        simp only [axisView, hkv]
      · rw [if_neg hm] at h2
        rcases bindEqOk.mp h2 with ⟨s, hs, h3⟩
        by_cases hd : s.spaceDemand = SpaceDemand.shrinkToFit
        · rw [if_neg (by simp [hd])] at h3
          rcases bindEqOk.mp h3 with ⟨total, htot, h4⟩
          cases h4
          simp only [axisView, hkv]
          rw [List.get?_set_ne _ _ (Ne.symm hne)]
        · rw [if_pos (by simp [hd])] at h3
          cases h3
          simp only [axisView, hkv]

/-- shrink_axis_frame over a child list. -/
theorem shrinkKids_axis_frame (di dj : Nat) (hne : dj ≠ di) (kids : List Widget)
    (out : List Widget × Nat) (h : shrinkKids kids di = Except.ok out) :
    axisViewKids dj out.1 = axisViewKids dj kids := by
  cases kids with
  | nil =>
      simp only [shrinkKids] at h
      cases Except.ok.inj h
      rfl
  | cons c rest =>
      simp only [shrinkKids] at h
      rcases bindEqOk.mp h with ⟨c1, hc1, h2⟩
      rcases bindEqOk.mp h2 with ⟨cs, hcs, h3⟩
      rcases bindEqOk.mp h3 with ⟨out2, hout2, h4⟩
      cases Except.ok.inj h4
      simp only [axisViewKids]
      rw [shrink_axis_frame di dj hne c c1 hc1,
        shrinkKids_axis_frame di dj hne rest out2 hout2]

end

mutual

/-- Expand resolution leaves every other axis's view unchanged. -/
theorem expand_axis_frame (di dj : Nat) (hne : dj ≠ di) (asn : Option SimpleRange)
    (w w' : Widget) (h : expandChildren w di asn = Except.ok w') :
    axisView dj w' = axisView dj w := by
  cases w with
  | leaf n sizes =>
      simp only [expandChildren] at h
      cases h
      simp only [axisView]
      rw [applyExpandAssign_get_ne _ _ _ _ hne]
  | frame n sizes seqDir kids =>
      simp only [expandChildren] at h
      by_cases hk : kids.isEmpty
      · rw [if_pos hk] at h
        cases h
        simp only [axisView]
        rw [applyExpandAssign_get_ne _ _ _ _ hne]
      · rw [if_neg hk] at h
        rcases bindEqOk.mp h with ⟨m, hm, h2⟩
        by_cases hm0 : m > 0
        · rw [if_pos hm0] at h2
          rcases bindEqOk.mp h2 with ⟨s, hs, h3⟩
          rcases bindEqOk.mp h3 with ⟨r, hr, h4⟩
          by_cases hseq : seqDir = di
          · rw [if_pos hseq] at h4
            rcases bindEqOk.mp h4 with ⟨sF, _, h5⟩
            rcases bindEqOk.mp h5 with ⟨sL, _, h6⟩
            rcases bindEqOk.mp h6 with ⟨a2, _, h7⟩
            by_cases hle : a2 ≤ 0
            · rw [if_pos hle] at h7
              exact Except.noConfusion h7
            · rw [if_neg hle] at h7
              rcases bindEqOk.mp h7 with ⟨kids2, hek, h8⟩
              cases h8
              simp only [axisView, expandKids_axis_frame di dj hne _ kids kids2 hek]
              rw [applyExpandAssign_get_ne _ _ _ _ hne]
          · rw [if_neg hseq] at h4
            rcases bindEqOk.mp h4 with ⟨kids2, hek, h5⟩
            cases h5
            simp only [axisView, expandKids_axis_frame di dj hne _ kids kids2 hek]
            rw [applyExpandAssign_get_ne _ _ _ _ hne]
        · rw [if_neg hm0] at h2
          rcases bindEqOk.mp h2 with ⟨kids2, hek, h3⟩
          cases h3
          simp only [axisView, expandKids_axis_frame di dj hne _ kids kids2 hek]
          rw [applyExpandAssign_get_ne _ _ _ _ hne]

/-- expand_axis_frame over a child list. -/
theorem expandKids_axis_frame (di dj : Nat) (hne : dj ≠ di) (asn : Option SimpleRange)
    (kids kids' : List Widget) (h : expandKids kids di asn = Except.ok kids') :
    axisViewKids dj kids' = axisViewKids dj kids := by
  cases kids with
  | nil =>
      simp only [expandKids] at h
      cases h
      rfl
  | cons c rest =>
      simp only [expandKids] at h
      rcases bindEqOk.mp h with ⟨c1, hc1, h2⟩
      rcases bindEqOk.mp h2 with ⟨rest1, hrest, h3⟩
      cases h3
      simp only [axisViewKids]
      rw [expand_axis_frame di dj hne asn c c1 hc1,
        expandKids_axis_frame di dj hne asn rest rest1 hrest]

end

mutual

/-- Position assignment leaves every other axis's view unchanged. -/
theorem positions_axis_frame (di dj : Nat) (hne : dj ≠ di) (asn : Option SimpleRange)
    (w w' : Widget) (h : calcPositionsofChildren w di asn = Except.ok w') :
    axisView dj w' = axisView dj w := by
  cases w with
  | leaf n sizes =>
      simp only [calcPositionsofChildren] at h
      cases h
      simp only [axisView]
      rw [applyRangeAssign_get_ne _ _ _ _ hne]
  | frame n sizes seqDir kids =>
      simp only [calcPositionsofChildren] at h
      by_cases hk : kids.isEmpty
      · rw [if_pos hk] at h
        cases h
        simp only [axisView]
        rw [applyRangeAssign_get_ne _ _ _ _ hne]
      · rw [if_neg hk] at h
        rcases bindEqOk.mp h with ⟨s, hs, h2⟩
        rcases bindEqOk.mp h2 with ⟨assigns, hassigns, h3⟩
        rcases bindEqOk.mp h3 with ⟨kids2, hpos, h4⟩
        cases h4
        simp only [axisView, posKids_axis_frame di dj hne kids assigns kids2 hpos]
        rw [applyRangeAssign_get_ne _ _ _ _ hne]

/-- positions_axis_frame over a child list. -/
theorem posKids_axis_frame (di dj : Nat) (hne : dj ≠ di) (kids : List Widget)
    (assigns : List SimpleRange) (kids' : List Widget)
    (h : posKids kids di assigns = Except.ok kids') :
    axisViewKids dj kids' = axisViewKids dj kids := by
  cases kids with
  | nil =>
      simp only [posKids] at h
      cases h
      rfl
  | cons c rest =>
      simp only [posKids] at h
      rcases bindEqOk.mp h with ⟨c1, hc1, h2⟩
      rcases bindEqOk.mp h2 with ⟨rest1, hrest, h3⟩
      cases h3
      simp only [axisViewKids]
      rw [positions_axis_frame di dj hne _ c c1 hc1,
        posKids_axis_frame di dj hne rest _ rest1 hrest]

end

/-- Binding after a map folds the mapped value into the continuation. -/
theorem mapThenBind {α β γ : Type} (g : α → β) (e : Except LayoutError α)
    (k : β → Except LayoutError γ) :
    (Except.map g e >>= k) = e >>= fun a => k (g a) := by
  cases e <;> rfl

/-- Congruence of bind with the success equation available. -/
theorem bindCongrH {α β : Type} (e : Except LayoutError α)
    (k1 k2 : α → Except LayoutError β)
    (h : ∀ a, e = Except.ok a → k1 a = k2 a) : (e >>= k1) = (e >>= k2) := by
  cases he : e with
  | error err => rfl
  | ok a => exact h a he

mutual

/-- The capacity pre-check factors through the axis view. -/
theorem checkSize_view (eps : ℚ) (di : Nat) (w : Widget) :
    checkSizeChildrenV eps (axisView di w) di = checkSizeChildren eps w di := by
  cases w with
  | leaf n sizes => rfl
  | frame n sizes seqDir kids =>
      simp only [axisView, checkSizeChildrenV, checkSizeChildren,
        axisViewKids_isEmpty, getSizeV_get]
      by_cases hk : kids.isEmpty
      · rw [if_pos hk, if_pos hk]
      · rw [if_neg hk, if_neg hk]
        refine bindCongr _ _ _ fun s => ?_
        by_cases hd : s.spaceDemand ≠ SpaceDemand.exact
        · rw [if_pos hd, if_pos hd]
        · rw [if_neg hd, if_neg hd]
          refine bindCongr _ _ _ fun r => ?_
          simp only [headSize_view, lastSize_view, seqOccupiedFold_view,
            crossFitCheck_view]
          refine bindCongr _ _ _ fun _ => ?_
          exact checkSizeKids_view eps di kids

/-- checkSize_view over a child list. -/
theorem checkSizeKids_view (eps : ℚ) (di : Nat) (l : List Widget) :
    checkSizeKidsV eps (axisViewKids di l) di = checkSizeKids eps l di := by
  cases l with
  | nil => rfl
  | cons c rest =>
      simp only [axisViewKids, checkSizeKidsV, checkSizeKids]
      rw [checkSize_view]
      refine bindCongr _ _ _ fun _ => ?_
      exact checkSizeKids_view eps di rest

end

mutual

/-- Shrink resolution factors through the axis view. -/
theorem shrink_view (di : Nat) (w : Widget) :
    shrinkChildrenV (axisView di w) di =
      Except.map (axisView di) (shrinkChildren w di) := by
  cases w with
  | leaf n sizes => rfl
  | frame n sizes seqDir kids =>
      simp only [axisView, shrinkChildrenV, shrinkChildren]
      rw [shrinkKids_view di kids, mapThenBind, mapBind]
      refine bindCongr _ _ _ fun out => ?_
      obtain ⟨kids1, m⟩ := out
      dsimp only
      by_cases hm : m > 0
      · rw [if_pos hm, if_pos hm, mapOk]
        simp only [axisView]
      · rw [if_neg hm, if_neg hm, getSizeV_get, mapBind]
        refine bindCongrH _ _ _ fun s hs => ?_
        have hget : sizes.get? di = some s := getSizeL_ok.mp hs
        by_cases hd : s.spaceDemand ≠ SpaceDemand.shrinkToFit
        · rw [if_pos hd, if_pos hd, mapOk]
          simp only [axisView]
        · rw [if_neg hd, if_neg hd, mapBind]
          have hwrite : ∀ total : ℚ,
              (Except.ok (.frameV n (some { s with
                  spaceDemand := SpaceDemand.exact
                  range := some ⟨0, total + 2 * s.innerBuffer.value⟩ }) seqDir
                  (axisViewKids di kids1)) : Except LayoutError AxisView) =
                Except.map (axisView di) (Except.ok (.frame n
                  (sizes.set di { s with
                    spaceDemand := SpaceDemand.exact
                    range := some ⟨0, total + 2 * s.innerBuffer.value⟩ })
                  seqDir kids1)) := by
            intro total
            rw [mapOk]
            simp only [axisView]
            rw [List.get?_set_eq, hget]
            rfl
          cases kids1 with
          | nil =>
              refine bindCongr _ _ _ fun total => hwrite total
          | cons k0 krest =>
              rw [sumExtentsAndBuffersFold_view]
              simp only [axisViewKids]
              simp only [axisViewKids_getLastD, size_axisView,
                maxExtentFold_view]
              refine bindCongr _ _ _ fun total => ?_
              exact hwrite total

/-- shrink_view over a child list. -/
theorem shrinkKids_view (di : Nat) (l : List Widget) :
    shrinkKidsV (axisViewKids di l) di =
      Except.map (fun o : List Widget × Nat => (axisViewKids di o.1, o.2))
        (shrinkKids l di) := by
  cases l with
  | nil => rfl
  | cons c rest =>
      simp only [axisViewKids, shrinkKidsV, shrinkKids]
      rw [shrink_view di c, mapThenBind, mapBind]
      refine bindCongr _ _ _ fun c1 => ?_
      rw [size_axisView, mapBind]
      refine bindCongr _ _ _ fun cs => ?_
      rw [shrinkKids_view di rest, mapThenBind, mapBind]
      refine bindCongr _ _ _ fun out => ?_
      rw [mapOk]
      dsimp only
      simp only [axisViewKids]

end

mutual

/-- Expand resolution factors through the axis view. -/
theorem expand_view (di : Nat) (w : Widget) (asn : Option SimpleRange) :
    expandChildrenV (axisView di w) di asn =
      Except.map (axisView di) (expandChildren w di asn) := by
  cases w with
  | leaf n sizes =>
      simp only [axisView, expandChildrenV, expandChildren,
        applyExpandAssign_view, mapOk]
  | frame n sizes seqDir kids =>
      simp only [axisView, expandChildrenV, expandChildren,
        applyExpandAssign_view, axisViewKids_isEmpty, getSizeV_get]
      by_cases hk : kids.isEmpty
      · rw [if_pos hk, if_pos hk, mapOk]
        simp only [axisView]
      · rw [if_neg hk, if_neg hk, countExpandFold_view, mapBind]
        refine bindCongr _ _ _ fun numExpand => ?_
        by_cases hn : numExpand > 0
        · rw [if_pos hn, if_pos hn, mapBind]
          refine bindCongr _ _ _ fun s => ?_
          rw [mapBind]
          refine bindCongr _ _ _ fun r => ?_
          by_cases hseq : seqDir = di
          · rw [if_pos hseq, if_pos hseq, headSize_view, mapBind]
            refine bindCongr _ _ _ fun sF => ?_
            rw [lastSize_view, mapBind]
            refine bindCongr _ _ _ fun sL => ?_
            rw [expandOccupiedFold_view, mapBind]
            refine bindCongr _ _ _ fun avail2 => ?_
            by_cases hle : avail2 ≤ 0
            · rw [if_pos hle, if_pos hle, mapErr]
            · rw [if_neg hle, if_neg hle, expandKids_view, mapThenBind,
                mapBind]
              refine bindCongr _ _ _ fun kids2 => ?_
              rw [mapOk]
              simp only [axisView]
          · rw [if_neg hseq, if_neg hseq, expandKids_view, mapThenBind,
              mapBind]
            refine bindCongr _ _ _ fun kids2 => ?_
            rw [mapOk]
            simp only [axisView]
        · rw [if_neg hn, if_neg hn, expandKids_view, mapThenBind, mapBind]
          refine bindCongr _ _ _ fun kids2 => ?_
          rw [mapOk]
          simp only [axisView]

/-- expand_view over a child list. -/
theorem expandKids_view (di : Nat) (l : List Widget) (asn : Option SimpleRange) :
    expandKidsV (axisViewKids di l) di asn =
      Except.map (axisViewKids di) (expandKids l di asn) := by
  cases l with
  | nil => rfl
  | cons c rest =>
      simp only [axisViewKids, expandKidsV, expandKids]
      rw [expand_view di c asn, mapThenBind, mapBind]
      refine bindCongr _ _ _ fun c1 => ?_
      rw [expandKids_view di rest asn, mapThenBind, mapBind]
      refine bindCongr _ _ _ fun rest1 => ?_
      rw [mapOk]
      simp only [axisViewKids]

end

mutual

/-- Position assignment factors through the axis view. -/
theorem positions_view (di : Nat) (w : Widget) (asn : Option SimpleRange) :
    calcPositionsofChildrenV (axisView di w) di asn =
      Except.map (axisView di) (calcPositionsofChildren w di asn) := by
  cases w with
  | leaf n sizes =>
      simp only [axisView, calcPositionsofChildrenV, calcPositionsofChildren,
        applyRangeAssign_view, mapOk]
  | frame n sizes seqDir kids =>
      simp only [axisView, calcPositionsofChildrenV, calcPositionsofChildren,
        applyRangeAssign_view, axisViewKids_isEmpty, getSizeV_get,
        axisViewKids_length]
      by_cases hk : kids.isEmpty
      · rw [if_pos hk, if_pos hk, mapOk]
        simp only [axisView]
      · rw [if_neg hk, if_neg hk, mapBind]
        refine bindCongr _ _ _ fun s => ?_
        rw [mapBind]
        simp only [headSize_view, lastSize_view, ← axisViewKids_reverse,
          packHighAssignFold_view, packAssignFold_view,
          sumExtentsAndBuffersFold_view, crossAssignFold_view]
        refine bindCongr _ _ _ fun assigns => ?_
        rw [posKids_view, mapThenBind, mapBind]
        refine bindCongr _ _ _ fun kids2 => ?_
        rw [mapOk]
        simp only [axisView]

/-- positions_view over a child list. -/
theorem posKids_view (di : Nat) (l : List Widget) (assigns : List SimpleRange) :
    posKidsV (axisViewKids di l) di assigns =
      Except.map (axisViewKids di) (posKids l di assigns) := by
  cases l with
  | nil => rfl
  | cons c rest =>
      simp only [axisViewKids, posKidsV, posKids]
      rw [positions_view di c assigns.head?, mapThenBind, mapBind]
      refine bindCongr _ _ _ fun c1 => ?_
      rw [posKids_view di rest (assigns.drop 1), mapThenBind, mapBind]
      refine bindCongr _ _ _ fun rest1 => ?_
      rw [mapOk]
      simp only [axisViewKids]

end

/-- The whole axis-di solve factors through the axis-di view: its outcome,
observed through that view, is a function of the view alone. -/
theorem calcRanges_view (g : Geometry) (di : Nat) :
    calcRangesV g.epsilon (axisView di g.rootWidget) di =
      Except.map (axisView di) (g.calcRanges di) := by
  simp only [calcRangesV, Geometry.calcRanges]
  rw [checkSize_view, mapBind]
  refine bindCongr _ _ _ fun _ => ?_
  rw [shrink_view, mapThenBind, mapBind]
  refine bindCongr _ _ _ fun t1 => ?_
  rw [expand_view, mapThenBind, mapBind]
  refine bindCongr _ _ _ fun t2 => ?_
  exact positions_view di t2 none

/-- C9 (confirmed): a successful solve of axis di leaves the axis-dj view
of the tree — the complete SizeSpec stored at dj of every widget
(spaceDemand, range, innerBuffer, outerBuffer, childrenJustify) together
with the tree structure — unchanged for every other axis dj, and solving
axis dj afterwards gives, observed through the axis-dj view, exactly the
outcome of solving dj on the original tree: the same error, or successes
with identical axis-dj data at every node. -/
theorem per_axis_frame_effect (g : Geometry) (di dj : Nat) (t' : Widget)
    (hne : dj ≠ di) (h : g.calcRanges di = Except.ok t') :
    axisView dj t' = axisView dj g.rootWidget ∧
    Except.map (axisView dj) (Geometry.calcRanges ⟨t', g.epsilon⟩ dj) =
      Except.map (axisView dj) (g.calcRanges dj) := by
  have hpres : axisView dj t' = axisView dj g.rootWidget := by
    simp only [Geometry.calcRanges] at h
    rcases bindEqOk.mp h with ⟨u, hu, h1⟩
    rcases bindEqOk.mp h1 with ⟨t1, ht1, h2⟩
    rcases bindEqOk.mp h2 with ⟨t2, ht2, h3⟩
    rw [positions_axis_frame di dj hne none t2 t' h3,
      expand_axis_frame di dj hne none t1 t2 ht2,
      shrink_axis_frame di dj hne g.rootWidget t1 ht1]
  refine ⟨hpres, ?_⟩
  rw [← calcRanges_view ⟨t', g.epsilon⟩ dj, ← calcRanges_view g dj]
  show calcRangesV g.epsilon (axisView dj t') dj =
    calcRangesV g.epsilon (axisView dj g.rootWidget) dj
  rw [hpres]

/-- C9 witness: the two-axis tree solved on axis 0 keeps its axis-1 view,
and the axis-1 solve afterwards agrees with the axis-1 solve of the
original tree. -/
theorem per_axis_frame_effect_witness :
    ((1 : Nat) ≠ 0 ∧
      Geometry.calcRanges ⟨rootTwoAxes, defaultEpsilon⟩ 0 =
        Except.ok rootTwoAxesSolved) ∧
    (axisView 1 rootTwoAxesSolved = axisView 1 rootTwoAxes ∧
      Except.map (axisView 1)
          (Geometry.calcRanges ⟨rootTwoAxesSolved, defaultEpsilon⟩ 1) =
        Except.map (axisView 1)
          (Geometry.calcRanges ⟨rootTwoAxes, defaultEpsilon⟩ 1)) :=
  ⟨⟨by decide, by with_unfolding_all rfl⟩,
    per_axis_frame_effect ⟨rootTwoAxes, defaultEpsilon⟩ 0 1 rootTwoAxesSolved
      (by decide) (by with_unfolding_all rfl)⟩

/-- C5 witness: the theorem applied to the concrete spread container
rootSpreadPair, whose leftover space 8 goes entirely into the single gap
between its two children. -/
theorem spread_between_children_only_witness :
    2 ≤ (Widget.kids rootSpreadPair).length ∧
    ((∃ r0 : SimpleRange, rangeAtPath rootSpreadPairSolved [0] 0 = some r0 ∧
        r0.lo = (SimpleRange.mk 0 10).lo + (wsExact 10 0 0 .spread).innerBuffer.value) ∧
     (∀ i : Nat, ∀ a b : Widget, ∀ sa sb : WidgetSize, ∀ ra rb : SimpleRange,
        (Widget.kids rootSpreadPair).get? i = some a →
        (Widget.kids rootSpreadPair).get? (i + 1) = some b →
        Widget.size a 0 = Except.ok sa → Widget.size b 0 = Except.ok sb →
        rangeAtPath rootSpreadPairSolved [i] 0 = some ra →
        rangeAtPath rootSpreadPairSolved [i + 1] 0 = some rb →
        rb.lo - ra.hi = sa.outerBuffer.value + sb.outerBuffer.value +
          (((SimpleRange.mk 0 10).hi - (SimpleRange.mk 0 10).lo) -
            2 * (wsExact 10 0 0 .spread).innerBuffer.value -
            (2 - (wsExact 1 0 0 .spread).outerBuffer.value -
              (wsExact 1 0 0 .spread).outerBuffer.value)) /
            (((Widget.kids rootSpreadPair).length - 1 : Nat) : ℚ))) :=
  ⟨by decide,
   spread_between_children_only "gui" [wsExact 10 0 0 .spread] 0
     (Widget.kids rootSpreadPair) (wsExact 10 0 0 .spread) ⟨0, 10⟩ 2
     (wsExact 1 0 0 .spread) (wsExact 1 0 0 .spread) rootSpreadPairSolved
     rfl rfl (by decide) rfl (by with_unfolding_all rfl)
     (by with_unfolding_all rfl) (by with_unfolding_all rfl)
     (by with_unfolding_all rfl)⟩

end Widgeometry
